import Mathlib

/-!
Verification of the two self-contained cores of the xf86-input-libinput
driver: the drag-lock button filter (src/draglock.c) and the cubic Bézier
rasterizer (src/bezier.c).  The C code is shallowly embedded: machine
integers become `ℤ`/`ℕ`, the fixed-size arrays of `struct draglock` become
total functions on `Fin 33`, C doubles become exact fractions (`Q` below),
and the out-of-bounds accesses a hostile button number would cause are
modelled by `Option` (a `none` result marks undefined behaviour).
-/

/-! ### Exact fractions standing in for C doubles

Every double value reached by bezier.c is an exact fraction of machine
integers (control coordinates, `i/49`, slopes of integer points), so the
doubles are embedded as unreduced integer fractions.  `Q.toRat` gives the
represented rational; a fraction is meaningful only when its denominator
is nonzero, which the theorems track as a hypothesis. -/

structure Q where
  num : ℤ
  den : ℤ
deriving DecidableEq, Repr

/-- The rational number a fraction stands for. -/
def Q.toRat (q : Q) : ℚ := (q.num : ℚ) / (q.den : ℚ)

/-- An int (or int literal) converted to double. -/
def Q.ofInt (z : ℤ) : Q := ⟨z, 1⟩

def Q.add (p q : Q) : Q := ⟨p.num * q.den + q.num * p.den, p.den * q.den⟩

def Q.sub (p q : Q) : Q := ⟨p.num * q.den - q.num * p.den, p.den * q.den⟩

def Q.mul (p q : Q) : Q := ⟨p.num * q.num, p.den * q.den⟩

def Q.div (p q : Q) : Q := ⟨p.num * q.den, p.den * q.num⟩

/-- Strict comparison `p < q`, sign-correct for any nonzero denominators. -/
def Q.lt (p q : Q) : Prop :=
  (p.num * q.den - q.num * p.den) * (p.den * q.den) < 0

/-- Comparison `p ≤ q`, sign-correct for any nonzero denominators. -/
def Q.le (p q : Q) : Prop :=
  (p.num * q.den - q.num * p.den) * (p.den * q.den) ≤ 0

instance : Add Q := ⟨Q.add⟩

instance : Sub Q := ⟨Q.sub⟩

instance : Mul Q := ⟨Q.mul⟩

instance : Div Q := ⟨Q.div⟩

instance (p q : Q) : Decidable (Q.lt p q) :=
  inferInstanceAs (Decidable (_ < _))

instance (p q : Q) : Decidable (Q.le p q) :=
  inferInstanceAs (Decidable (_ ≤ _))

/-- The C cast `(int)d`: truncation toward zero, which for an exact
fraction is T-division of the numerator by the denominator. -/
def Q.trunc (q : Q) : ℤ := q.num.tdiv q.den

/-- Mathematical truncation toward zero on ℚ, the specification-side
counterpart of `Q.trunc`. -/
def ratTrunc (x : ℚ) : ℤ := if x < 0 then -⌊-x⌋ else ⌊x⌋

/-! ### Drag lock: data model (src/draglock.h) -/

/-- DRAGLOCK_MAX_BUTTONS from draglock.h. -/
def DRAGLOCK_MAX_BUTTONS : ℕ := 32

/-- enum draglock_mode. -/
inductive DraglockMode
  | disabled
  | meta
  | pairs
deriving DecidableEq, Repr

/-- enum draglock_button_state. -/
inductive DraglockButtonState
  | state_none
  | state_down_1
  | state_up_1
  | state_down_2
deriving DecidableEq, Repr

/-- struct draglock: `lock_pair` and `lock_state` are C arrays of size
DRAGLOCK_MAX_BUTTONS + 1 = 33, embedded as total functions on `Fin 33`.
`lock_pair` holds `unsigned int` values that are only ever assigned from
validated nonnegative ints, so `ℤ` is used. -/
structure Draglock where
  mode : DraglockMode
  meta_button : ℤ
  meta_state : Bool
  lock_pair : Fin 33 → ℤ
  lock_state : Fin 33 → DraglockButtonState

/-- A C access `a[b]` into one of the size-33 arrays is in bounds iff
`0 ≤ b ≤ 32`; out of bounds is undefined behaviour, modelled as `none`. -/
def buttonIndex (b : ℤ) : Option (Fin 33) :=
  if h : 0 ≤ b ∧ b ≤ 32 then some ⟨b.toNat, by omega⟩ else none

/-- Pointwise update of the per-button state table. -/
def setLockState (f : Fin 33 → DraglockButtonState) (i : Fin 33)
    (v : DraglockButtonState) : Fin 33 → DraglockButtonState :=
  fun j => if j = i then v else f j

/-! ### Drag lock: operations (src/draglock.c) -/

/-- draglock_set_meta (draglock.c:143-153). -/
def draglock_set_meta (dl : Draglock) (meta_button : ℤ) : ℤ × Draglock :=
  if meta_button < 0 ∨ (DRAGLOCK_MAX_BUTTONS : ℤ) ≤ meta_button then
    (1, dl)
  else
    (0, { dl with
          meta_button := meta_button,
          mode := if meta_button ≠ 0 then .meta else .disabled })

/-- draglock_set_pairs (draglock.c:155-176): validates the whole array
first (`sz == 0 || array[0] != 0` and the range of every entry), then
copies it into `lock_pair` (array indices ≥ 33 cannot be written in the
embedding; every C caller passes `sz ≤ 33`) and recomputes the mode. -/
def draglock_set_pairs (dl : Draglock) (array : List ℤ) : ℤ × Draglock :=
  if array.length = 0 ∨ array.getD 0 0 ≠ 0 then
    (1, dl)
  else if array.any (fun a => decide (a < 0 ∨ (DRAGLOCK_MAX_BUTTONS : ℤ) ≤ a)) then
    (1, dl)
  else
    (0, { dl with
          mode := if array.any (fun a => decide (a ≠ 0)) then .pairs else .disabled,
          lock_pair := fun i => if h : (i : ℕ) < array.length then array.get ⟨i, h⟩ else dl.lock_pair i })

/-- draglock_get_mode (draglock.c:104-108). -/
def draglock_get_mode (dl : Draglock) : DraglockMode :=
  dl.mode

/-- draglock_get_meta (draglock.c:110-116). -/
def draglock_get_meta (dl : Draglock) : ℤ :=
  if dl.mode = .meta then dl.meta_button else 0

/-- The copy loop of draglock_get_pairs (draglock.c:135-139), fuel-guarded
so that it is structurally recursive; a fuel of 33 covers every run of the
C loop (which stops at `i = min sz 33`). -/
def get_pairs_loop (dl : Draglock) (sz : ℕ) :
    ℕ → ℕ → List ℤ → ℕ → List ℤ × ℕ
  | 0, _, arr, last => (arr, last)
  | fuel + 1, i, arr, last =>
    if h : i < sz ∧ i < 33 then
      let arr' := arr.set i (dl.lock_pair ⟨i, h.2⟩)
      let last' := if arr'.getD i 0 ≠ 0 ∧ last < i then i else last
      get_pairs_loop dl sz fuel (i + 1) arr' last'
    else
      (arr, last)

/-- draglock_get_pairs (draglock.c:118-141).  `array` is the caller's
buffer of `sz = array.length` ints; the returned pair is (return value,
buffer contents after the call). -/
def draglock_get_pairs (dl : Draglock) (array : List ℤ) : ℕ × List ℤ :=
  if dl.mode ≠ .pairs then
    (0, array)
  else if dl.meta_button ≠ 0 then
    (1, array.set 0 dl.meta_button)
  else
    let sz := array.length
    let r := get_pairs_loop dl sz 33 0 (List.replicate sz 0) 0
    (r.2, r.1)

/-! ### Drag lock: config-string parsing -/

/-- The `isspace` character class used by strtol in the C locale. -/
def c_isspace (c : Char) : Bool :=
  c = ' ' ∨ c = '\t' ∨ c = '\n' ∨ c = '\x0b' ∨ c = '\x0c' ∨ c = '\r'

/-- Digit-consuming loop of strtol: accumulates the value and returns the
rest of the string. -/
def strtol_digits : ℤ → List Char → ℤ × List Char
  | acc, [] => (acc, [])
  | acc, c :: rest =>
    if c.isDigit then strtol_digits (acc * 10 + ((c.toNat : ℤ) - 48)) rest
    else (acc, c :: rest)

/-- strtol(s, &end, 10): skips whitespace, takes an optional sign, then
digits.  Returns the parsed value together with the end pointer (the
unconsumed rest); when no digits are found it returns 0 and the original
string, exactly like C strtol sets `*endptr = nptr`. -/
def strtol (s : List Char) : ℤ × List Char :=
  let s1 := s.dropWhile c_isspace
  match s1 with
  | '-' :: r =>
    if (r.headD '*').isDigit then
      let p := strtol_digits 0 r
      (-p.1, p.2)
    else (0, s)
  | '+' :: r =>
    if (r.headD '*').isDigit then strtol_digits 0 r else (0, s)
  | r =>
    if (r.headD '*').isDigit then strtol_digits 0 r else (0, s)

/-- The pair-list loop of draglock_parse_config (draglock.c:72-86) over the
local `int pairs[DRAGLOCK_MAX_BUTTONS]` array (32 entries), fuel-guarded:
each iteration either fails or consumes at least one character, so a fuel
of `length + 1` is enough.  `none` models `return 1`. -/
def parse_pairs_loop : ℕ → List Char → (Fin 32 → ℤ) → Option (Fin 32 → ℤ)
  | 0, _, _ => none
  | fuel + 1, str, pairs =>
    if str = [] then some pairs
    else
      let pb := strtol str
      if pb.2 = [] then none
      else
        let str1 := pb.2
        let pt := strtol str1
        if pt.2 = str1 then none
        else if pb.1 ≤ 0 ∨ (DRAGLOCK_MAX_BUTTONS : ℤ) ≤ pb.1 ∨ (DRAGLOCK_MAX_BUTTONS : ℤ) ≤ pt.1 then none
        else
          parse_pairs_loop fuel pt.2
            (fun j => if (j : ℤ) = pb.1 then pt.1 else pairs j)

/-- The 32-entry local `pairs` array rendered as the list passed to
draglock_set_pairs (ARRAY_SIZE(pairs) = 32). -/
def pairsArrayToList (pairs : Fin 32 → ℤ) : List ℤ :=
  (List.range 32).map (fun i => if h : i < 32 then pairs ⟨i, h⟩ else 0)

/-- draglock_parse_config (draglock.c:35-89). -/
def draglock_parse_config (dl : Draglock) (config : Option (List Char)) :
    ℤ × Draglock :=
  match config with
  | none => (0, dl)
  | some s =>
    if s = [] then (0, { dl with mode := .disabled })
    else
      let pb := strtol s
      if pb.2 = [] then
        if pb.1 < 0 ∨ (DRAGLOCK_MAX_BUTTONS : ℤ) ≤ pb.1 then (1, dl)
        else if pb.1 = 0 then (0, { dl with mode := .disabled })
        else draglock_set_meta dl pb.1
      else
        let dl1 := { dl with mode := .disabled }
        match parse_pairs_loop (s.length + 1) s (fun _ => 0) with
        | none => (1, dl1)
        | some pairs => draglock_set_pairs dl1 (pairsArrayToList pairs)

/-- The state draglock_init_from_string resets the instance to before
parsing (draglock.c:94-99). -/
def freshDraglock : Draglock :=
  { mode := .disabled
    meta_button := 0
    meta_state := false
    lock_pair := fun _ => 0
    lock_state := fun _ => .state_none }

/-- draglock_init_from_string (draglock.c:91-102): the passed-in struct is
fully overwritten before parsing, so the embedding takes only the config
string. -/
def draglock_init_from_string (config : Option (List Char)) : ℤ × Draglock :=
  draglock_parse_config freshDraglock config

/-! ### Drag lock: event filtering -/

/-- draglock_filter_meta (draglock.c:178-220).  The result is
`(new state, *button, *press)`; `none` marks the out-of-bounds array
access `lock_state[b]` with `b ∉ [0, 32]`. -/
def draglock_filter_meta (dl : Draglock) (button press : ℤ) :
    Option (Draglock × ℤ × ℤ) :=
  if button = dl.meta_button then
    some ((if press ≠ 0 then { dl with meta_state := true } else dl), 0, press)
  else
    match buttonIndex button with
    | none => none
    | some i =>
      match dl.lock_state i with
      | .state_none =>
        if dl.meta_state ∧ press ≠ 0 then
          some ({ dl with
                  lock_state := setLockState dl.lock_state i .state_down_1,
                  meta_state := false }, button, press)
        else some (dl, button, press)
      | .state_down_1 =>
        if press = 0 then
          some ({ dl with lock_state := setLockState dl.lock_state i .state_up_1 }, 0, press)
        else some (dl, button, press)
      | .state_up_1 =>
        if press ≠ 0 then
          some ({ dl with lock_state := setLockState dl.lock_state i .state_down_2 }, 0, press)
        else some (dl, button, press)
      | .state_down_2 =>
        if press = 0 then
          some ({ dl with lock_state := setLockState dl.lock_state i .state_none }, button, press)
        else some (dl, button, press)

/-- draglock_filter_pair (draglock.c:222-261); `lock_pair[b]` is read
before anything else, so any out-of-range button is an out-of-bounds
access. -/
def draglock_filter_pair (dl : Draglock) (button press : ℤ) :
    Option (Draglock × ℤ × ℤ) :=
  match buttonIndex button with
  | none => none
  | some i =>
    if dl.lock_pair i = 0 then
      some (dl, button, press)
    else
      match dl.lock_state i with
      | .state_none =>
        if press ≠ 0 then
          some ({ dl with lock_state := setLockState dl.lock_state i .state_down_1 },
                dl.lock_pair i, press)
        else some (dl, button, press)
      | .state_down_1 =>
        if press = 0 then
          some ({ dl with lock_state := setLockState dl.lock_state i .state_up_1 }, 0, press)
        else some (dl, button, press)
      | .state_up_1 =>
        if press ≠ 0 then
          some ({ dl with lock_state := setLockState dl.lock_state i .state_down_2 }, 0, press)
        else some (dl, button, press)
      | .state_down_2 =>
        if press = 0 then
          some ({ dl with lock_state := setLockState dl.lock_state i .state_none },
                dl.lock_pair i, press)
        else some (dl, button, press)

/-- draglock_filter_button (draglock.c:263-282).  Button 0 returns
immediately; the `default: abort()` arm cannot occur because the embedded
mode type has exactly the three enum values. -/
def draglock_filter_button (dl : Draglock) (button press : ℤ) :
    Option (Draglock × ℤ × ℤ) :=
  if button = 0 then some (dl, button, press)
  else
    match dl.mode with
    | .disabled => some (dl, button, press)
    | .meta => draglock_filter_meta dl button press
    | .pairs => draglock_filter_pair dl button press

/-- Feeds a list of (button, is_press) events through
draglock_filter_button, collecting the rewritten events. -/
def draglock_run (dl : Draglock) : List (ℤ × ℤ) → Option (Draglock × List (ℤ × ℤ))
  | [] => some (dl, [])
  | (b, p) :: rest =>
    match draglock_filter_button dl b p with
    | none => none
    | some (dl', b', p') =>
      match draglock_run dl' rest with
      | none => none
      | some (dlf, outs) => some (dlf, (b', p') :: outs)

/-! ### Mode/meta-button invariant for reachability -/

/-- A Pairs-mode instance carries no meta button. -/
def DraglockInv (dl : Draglock) : Prop :=
  dl.mode = .pairs → dl.meta_button = 0

/-! ### Bézier rasterizer (src/bezier.c) -/

/-- struct point (bezier.c:41-43): int coordinates. -/
structure Pt where
  x : ℤ
  y : ℤ
deriving DecidableEq, Repr

/-- struct bezier_control_point (bezier.h:34-36): double coordinates. -/
structure BezierControlPoint where
  x : Q
  y : Q
deriving DecidableEq, Repr

/-- bezier_defaults (bezier.c:34-39). -/
def bezier_defaults : Fin 4 → BezierControlPoint :=
  fun i => if (i : ℕ) < 2 then ⟨Q.ofInt 0, Q.ofInt 0⟩ else ⟨Q.ofInt 1, Q.ofInt 1⟩

/-- One level of decasteljau (bezier.c:62-65): each neighbouring pair is
interpolated at `t` and the double result is truncated back into the int
fields of `struct point`. -/
def interp (t : Q) : List Pt → List Pt
  | a :: b :: rest =>
    ⟨((Q.ofInt 1 - t) * Q.ofInt a.x + t * Q.ofInt b.x).trunc,
     ((Q.ofInt 1 - t) * Q.ofInt a.y + t * Q.ofInt b.y).trunc⟩ :: interp t (b :: rest)
  | _ => []

/-- decasteljau (bezier.c:52-68): the C recursion runs `ncontrols - 1`
levels; the first argument is `ncontrols`, which bounds the recursion
structurally exactly as in the source. -/
def decasteljau : ℕ → List Pt → Q → Pt
  | _, [p], _ => p
  | n + 1, controls, t => decasteljau n (interp t controls) t
  | 0, _, _ => ⟨0, 0⟩

/-- flatten_curve (bezier.c:74-89): `ncurve_points` is decremented, then
the curve is sampled at `t = 1.0 * i / ncurve_points` for
`i = 0 .. ncurve_points`. -/
def flatten_curve (controls : List Pt) (ncontrols : ℕ) (ncurve_points : ℕ) :
    List Pt :=
  let n := ncurve_points - 1
  (List.range (n + 1)).map
    (fun (i : ℕ) => decasteljau ncontrols controls
      ((Q.ofInt 1 * Q.ofInt (i : ℤ)) / Q.ofInt (n : ℤ)))

/-- The x-loop of line_between (bezier.c:115-120), fuel-guarded: it writes
`curve[x] = (x, (int)(slope * x + offset))` for `x = a.x .. b.x`.  The
curve buffer is a total map from C int indices. -/
def line_loop (slope offset : Q) (stop : ℤ) :
    ℕ → ℤ → (ℤ → Pt) → (ℤ → Pt)
  | 0, _, curve => curve
  | fuel + 1, x, curve =>
    if x ≤ stop then
      line_loop slope offset stop fuel (x + 1)
        (fun j => if j = x then
            ⟨x, (slope * Q.ofInt x + offset).trunc⟩
          else curve j)
    else curve

/-- line_between (bezier.c:97-121). -/
def line_between (a b : Pt) (curve : ℤ → Pt) : ℤ → Pt :=
  if a.x = b.x then
    fun j => if j = a.x then ⟨a.x, a.y⟩ else curve j
  else
    let slope := Q.ofInt (b.y - a.y) / Q.ofInt (b.x - a.x)
    let offset := Q.ofInt a.y - slope * Q.ofInt a.x
    line_loop slope offset b.x (b.x - a.x + 1).toNat a.x curve

/-- The coordinate validation of cubic_bezier (bezier.c:139-141): every
control coordinate must lie in [0.0, 1.0]. -/
def validCoords (controls : Fin 4 → BezierControlPoint) : Prop :=
  ∀ i : Fin 4, ¬Q.lt (controls i).x (Q.ofInt 0) ∧ ¬Q.lt (Q.ofInt 1) (controls i).x ∧
    ¬Q.lt (controls i).y (Q.ofInt 0) ∧ ¬Q.lt (Q.ofInt 1) (controls i).y

instance (controls : Fin 4 → BezierControlPoint) : Decidable (validCoords controls) :=
  inferInstanceAs (Decidable (∀ _, _))

/-- The scaling step of cubic_bezier (bezier.c:143-144): control points are
scaled into `[0, range]` and truncated into int points. -/
def scaleCtrls (controls : Fin 4 → BezierControlPoint) (range : ℤ) :
    Fin 4 → Pt :=
  fun i => ⟨((controls i).x * Q.ofInt range).trunc,
            ((controls i).y * Q.ofInt range).trunc⟩

/-- The monotonicity validation of cubic_bezier (bezier.c:147-150),
performed on the scaled integer points. -/
def scaledMonotone (ctrls : Fin 4 → Pt) : Prop :=
  ∀ i : Fin 3, ¬((ctrls i.succ).x < (ctrls i.castSucc).x)

instance (ctrls : Fin 4 → Pt) : Decidable (scaledMonotone ctrls) :=
  inferInstanceAs (Decidable (∀ _, _))

/-- The 50-point sample list of cubic_bezier (bezier.c:153): the four
scaled control points flattened to nsegments = 50 curve points. -/
def bezier_curve_points (ctrls : Fin 4 → Pt) : List Pt :=
  flatten_curve [ctrls 0, ctrls 1, ctrls 2, ctrls 3] 4 50

/-- The local `curve[i]` of cubic_bezier. -/
def bezier_cAt (ctrls : Fin 4 → Pt) (i : ℕ) : Pt :=
  (bezier_curve_points ctrls).getD i ⟨0, 0⟩

/-- The drawing phase of cubic_bezier (bezier.c:165-171): a line from
(0,0) to the first sample, lines between consecutive samples, and the
final backfill line to (range, range) when the last sample stops short of
the right edge.  `junk` is the arbitrary initial content of the
uninitialised local `struct point bezier[bezier_sz]` array. -/
def bezier_draw (ctrls : Fin 4 → Pt) (range : ℤ) (junk : ℤ → Pt) : ℤ → Pt :=
  let buf1 := line_between ⟨0, 0⟩ (bezier_cAt ctrls 0) junk
  let buf2 := (List.range 49).foldl
    (fun b i => line_between (bezier_cAt ctrls i) (bezier_cAt ctrls (i + 1)) b) buf1
  if (bezier_cAt ctrls 49).x < range then
    line_between (bezier_cAt ctrls 49) ⟨range, range⟩ buf2
  else buf2

/-- cubic_bezier (bezier.c:123-177).  `bezier_out` is the caller's output
buffer, returned unchanged on failure.  The success result is built
exactly as the final copy loop does: `bezier_out[i] = bezier[i].y` for
`i < bezier_sz`. -/
def cubic_bezier (controls : Fin 4 → BezierControlPoint) (bezier_sz : ℕ)
    (junk : ℤ → Pt) (bezier_out : List ℤ) : Bool × List ℤ :=
  let range : ℤ := (bezier_sz : ℤ) - 1
  if validCoords controls then
    let ctrls := scaleCtrls controls range
    if scaledMonotone ctrls then
      (true, (List.range bezier_sz).map (fun (i : ℕ) => (bezier_draw ctrls range junk (i : ℤ)).y))
    else (false, bezier_out)
  else (false, bezier_out)

/-- The k-th line segment drawn by bezier_draw, in drawing order. -/
def segAt (ctrls : Fin 4 → Pt) (range : ℤ) (k : ℕ) : Pt × Pt :=
  if k = 0 then (⟨0, 0⟩, bezier_cAt ctrls 0)
  else if k ≤ 49 then (bezier_cAt ctrls (k - 1), bezier_cAt ctrls k)
  else (bezier_cAt ctrls 49, ⟨range, range⟩)

/-- How many segments bezier_draw draws (the backfill segment is drawn
only when the last sample stops short of the right edge). -/
def segCount (ctrls : Fin 4 → Pt) (range : ℤ) : ℕ :=
  if (bezier_cAt ctrls 49).x < range then 51 else 50

/-- The x coordinates of the shared segment endpoints, in drawing order. -/
def endpt (ctrls : Fin 4 → Pt) (range : ℤ) (k : ℕ) : ℤ :=
  if k = 0 then 0
  else if k ≤ 50 then (bezier_cAt ctrls (k - 1)).x
  else range

/-- A point of the scaled canvas: both coordinates within [0, range]. -/
def PtInRange (range : ℤ) (p : Pt) : Prop :=
  0 ≤ p.x ∧ p.x ≤ range ∧ 0 ≤ p.y ∧ p.y ≤ range

/-- A point on the canvas diagonal. -/
def PtDiag (p : Pt) : Prop := p.x = p.y

/-- A concrete junk buffer used by the witnesses. -/
def junkZero : ℤ → Pt := fun _ => ⟨5, 77⟩

/-- Control points with all coordinates in [0,1] but x not monotone
(c1.x = 9/10 > 1/2 = c2.x): the counterexample input for the rejection
claim. -/
def cexCtrls : Fin 4 → BezierControlPoint :=
  fun i => if (i : ℕ) = 0 then ⟨Q.ofInt 0, Q.ofInt 0⟩
    else if (i : ℕ) = 1 then ⟨⟨9, 10⟩, Q.ofInt 0⟩
    else if (i : ℕ) = 2 then ⟨⟨1, 2⟩, Q.ofInt 1⟩
    else ⟨Q.ofInt 1, Q.ofInt 1⟩

/-- Control points with c0.x = 2 outside [0,1]. -/
def badCtrls : Fin 4 → BezierControlPoint :=
  fun i => if (i : ℕ) = 0 then ⟨Q.ofInt 2, Q.ofInt 0⟩ else ⟨Q.ofInt 1, Q.ofInt 1⟩

/-! ### Concrete instances used by the claims -/

/-- A fresh instance configured for Meta mode with meta button 10. -/
def dlMeta10 : Draglock := (draglock_set_meta freshDraglock 10).2

/-- The 32-entry pairs array `{1 → 11}` (as draglock_parse_config builds). -/
def pairs_1_to_11 : List ℤ := (List.range 32).map (fun i => if i = 1 then 11 else 0)

/-- A fresh instance configured for Pairs mode with mapping[1] = 11. -/
def dlPairs11 : Draglock := (draglock_set_pairs freshDraglock pairs_1_to_11).2

/-- A 33-entry pairs array `{1 → 11}` covering the whole lock_pair table. -/
def m33_1_to_11 : List ℤ := (List.range 33).map (fun i => if i = 1 then 11 else 0)

/-- set_meta(5) followed by set_pairs({1 → 11}): set_pairs does not clear
meta_button, so this lands in Pairs mode with meta_button = 5. -/
def dlMetaThenPairs : Draglock :=
  (draglock_set_pairs (draglock_set_meta freshDraglock 5).2 m33_1_to_11).2

/-- An artificial instance whose meta_button is itself out of range. -/
def dlMetaOOR : Draglock := { freshDraglock with mode := .meta, meta_button := 40 }

/-! ### Sequences of public operations (for the reachability claim) -/

/-- The public draglock operations. -/
inductive DraglockOp
  | opInit (config : Option (List Char))
  | opSetMeta (b : ℤ)
  | opSetPairs (m : List ℤ)
  | opFilter (button press : ℤ)

/-- Effect of one public operation on the instance state
(draglock_init_from_string overwrites the whole struct; a filter call that
would access out of bounds is undefined behaviour and modelled as leaving
the state unchanged, which is irrelevant for the reachability results
below). -/
def applyOp (dl : Draglock) : DraglockOp → Draglock
  | .opInit c => (draglock_init_from_string c).2
  | .opSetMeta b => (draglock_set_meta dl b).2
  | .opSetPairs m => (draglock_set_pairs dl m).2
  | .opFilter b p =>
    match draglock_filter_button dl b p with
    | some r => r.1
    | none => dl

/-- Runs a sequence of public operations. -/
def runOps (dl : Draglock) (ops : List DraglockOp) : Draglock :=
  ops.foldl applyOp dl

/-- Discriminator for the set_pairs operation. -/
def DraglockOp.usesSetPairs : DraglockOp → Bool
  | .opSetPairs _ => true
  | _ => false

/-! ### Helper lemmas: drag lock -/

theorem filter_button_zero (dl : Draglock) (p : ℤ) :
    draglock_filter_button dl 0 p = some (dl, 0, p) := by
  simp [draglock_filter_button]

theorem set_meta_error_keeps (dl : Draglock) (b : ℤ)
    (h : (draglock_set_meta dl b).1 ≠ 0) : (draglock_set_meta dl b).2 = dl := by
  unfold draglock_set_meta at h ⊢
  split_ifs at h ⊢
  · rfl
  · exact absurd rfl h
  · exact absurd rfl h

theorem set_pairs_split (dl : Draglock) (m : List ℤ) :
    draglock_set_pairs dl m = (1, dl) ∨ (draglock_set_pairs dl m).1 = 0 := by
  unfold draglock_set_pairs
  split
  · exact Or.inl rfl
  · split
    · exact Or.inl rfl
    · exact Or.inr rfl

theorem set_pairs_meta_button (dl : Draglock) (m : List ℤ) :
    (draglock_set_pairs dl m).2.meta_button = dl.meta_button := by
  unfold draglock_set_pairs
  split
  · rfl
  · split <;> rfl

theorem getD_set_self (l : List ℤ) (i : ℕ) (a : ℤ) (h : i < l.length) :
    (l.set i a).getD i 0 = a := by
  rw [List.getD_eq_getElem?_getD, List.getElem?_set_eq_of_lt a h]
  rfl

theorem getD_set_ne (l : List ℤ) (i j : ℕ) (a : ℤ) (h : i ≠ j) :
    (l.set i a).getD j 0 = l.getD j 0 := by
  rw [List.getD_eq_getElem?_getD, List.getD_eq_getElem?_getD, List.getElem?_set_ne h]

theorem getD_replicate (n j : ℕ) : (List.replicate n (0 : ℤ)).getD j 0 = 0 := by
  rw [List.getD_eq_getElem?_getD, List.getElem?_replicate]
  split <;> rfl

theorem get_pairs_loop_succ (dl : Draglock) (sz fuel i : ℕ) (arr : List ℤ) (last : ℕ) :
    get_pairs_loop dl sz (fuel + 1) i arr last =
      if h : i < sz ∧ i < 33 then
        get_pairs_loop dl sz fuel (i + 1) (arr.set i (dl.lock_pair ⟨i, h.2⟩))
          (if (arr.set i (dl.lock_pair ⟨i, h.2⟩)).getD i 0 ≠ 0 ∧ last < i then i else last)
      else (arr, last) := rfl

theorem get_pairs_loop_spec (dl : Draglock) (sz : ℕ) :
    ∀ (fuel i : ℕ) (arr : List ℤ) (last : ℕ),
      arr.length = sz → i ≤ min sz 33 → min sz 33 ≤ i + fuel →
      (∀ j, i ≤ j → arr.getD j 0 = 0) →
      (∀ j, ∀ hj : j < 33, j < i → arr.getD j 0 = dl.lock_pair ⟨j, hj⟩) →
      (∀ j, ∀ hj : j < 33, j < i → dl.lock_pair ⟨j, hj⟩ ≠ 0 → j ≤ last) →
      (last = 0 ∨ ∃ hl : last < 33, last < i ∧ dl.lock_pair ⟨last, hl⟩ ≠ 0) →
      ((get_pairs_loop dl sz fuel i arr last).1.length = sz ∧
       (∀ j, ∀ hj : j < 33, j < min sz 33 →
          (get_pairs_loop dl sz fuel i arr last).1.getD j 0 = dl.lock_pair ⟨j, hj⟩) ∧
       (∀ j, min sz 33 ≤ j → (get_pairs_loop dl sz fuel i arr last).1.getD j 0 = 0) ∧
       (∀ j, ∀ hj : j < 33, j < min sz 33 → dl.lock_pair ⟨j, hj⟩ ≠ 0 →
          j ≤ (get_pairs_loop dl sz fuel i arr last).2) ∧
       ((get_pairs_loop dl sz fuel i arr last).2 = 0 ∨
         ∃ hl : (get_pairs_loop dl sz fuel i arr last).2 < 33,
           (get_pairs_loop dl sz fuel i arr last).2 < min sz 33 ∧
           dl.lock_pair ⟨(get_pairs_loop dl sz fuel i arr last).2, hl⟩ ≠ 0)) := by
  intro fuel
  induction fuel with
  | zero =>
    intro i arr last hlen hile hfuel hz hcopy hlast hdisj
    have hieq : i = min sz 33 := by omega
    subst hieq
    refine ⟨hlen, ?_, ?_, ?_, ?_⟩
    · intro j hj hjlt
      exact hcopy j hj hjlt
    · intro j hj
      exact hz j hj
    · intro j hj hjlt hnz
      exact hlast j hj hjlt hnz
    · rcases hdisj with h0 | ⟨hl, hlt, hnz⟩
      · exact Or.inl h0
      · exact Or.inr ⟨hl, hlt, hnz⟩
  | succ fuel ih =>
    intro i arr last hlen hile hfuel hz hcopy hlast hdisj
    by_cases hc : i < sz ∧ i < 33
    · rw [get_pairs_loop_succ, dif_pos hc]
      have hseti : (arr.set i (dl.lock_pair ⟨i, hc.2⟩)).getD i 0 = dl.lock_pair ⟨i, hc.2⟩ :=
        getD_set_self arr i _ (by omega)
      refine ih (i + 1) _ _ (by rw [List.length_set]; exact hlen) (by omega) (by omega)
        ?_ ?_ ?_ ?_
      · intro j hj
        rw [getD_set_ne arr i j _ (by omega)]
        exact hz j (by omega)
      · intro j hj hjlt
        rcases Nat.lt_succ_iff_lt_or_eq.mp hjlt with hji | hji
        · rw [getD_set_ne arr i j _ (by omega)]
          exact hcopy j hj hji
        · subst hji
          exact getD_set_self arr j _ (by omega)
      · intro j hj hjlt hnz
        rcases Nat.lt_succ_iff_lt_or_eq.mp hjlt with hji | hji
        · have hjle := hlast j hj hji hnz
          split_ifs
          · exact Nat.le_of_lt hji
          · exact hjle
        · subst hji
          rw [hseti]
          split_ifs with hcond
          · exact Nat.le_refl _
          · rcases not_and_or.mp hcond with hfalse | hle
            · exact absurd hnz (by simpa using hfalse)
            · exact Nat.le_of_not_lt hle
      · split_ifs with hcond
        · exact Or.inr ⟨hc.2, Nat.lt_succ_self i, by rw [hseti] at hcond; exact hcond.1⟩
        · rcases hdisj with h0 | ⟨hl, hlt, hnz⟩
          · exact Or.inl h0
          · exact Or.inr ⟨hl, Nat.lt_succ_of_lt hlt, hnz⟩
    · have hieq : i = min sz 33 := by
        clear hdisj hlast hcopy hz
        omega
      rw [get_pairs_loop_succ, dif_neg hc]
      subst hieq
      refine ⟨hlen, ?_, ?_, ?_, ?_⟩
      · intro j hj hjlt
        exact hcopy j hj hjlt
      · intro j hj
        exact hz j hj
      · intro j hj hjlt hnz
        exact hlast j hj hjlt hnz
      · rcases hdisj with h0 | ⟨hl, hlt, hnz⟩
        · exact Or.inl h0
        · exact Or.inr ⟨hl, hlt, hnz⟩

theorem buttonIndex_eq_none (b : ℤ) (h : ¬(0 ≤ b ∧ b ≤ 32)) :
    buttonIndex b = none := dif_neg h

theorem buttonIndex_isSome (b : ℤ) (h : 0 ≤ b ∧ b ≤ 32) :
    buttonIndex b = some ⟨b.toNat, by omega⟩ := dif_pos h

theorem buttonIndex_bounds (b : ℤ) (i : Fin 33) (h : buttonIndex b = some i) :
    0 ≤ b ∧ b ≤ 32 := by
  by_contra hc
  rw [buttonIndex_eq_none b hc] at h
  exact Option.noConfusion h

theorem filter_pair_isSome (dl : Draglock) (b p : ℤ) :
    (draglock_filter_pair dl b p).isSome = true ↔ (0 ≤ b ∧ b ≤ 32) := by
  unfold draglock_filter_pair
  by_cases h : 0 ≤ b ∧ b ≤ 32
  · rw [buttonIndex_isSome b h]
    refine iff_of_true ?_ h
    by_cases hz : dl.lock_pair ⟨b.toNat, by omega⟩ = 0
    · simp [hz]
    · rcases hst : dl.lock_state ⟨b.toNat, by omega⟩ <;>
        by_cases hp : p = 0 <;> simp [hz, hst, hp]
  · rw [buttonIndex_eq_none b h]
    simpa using h

theorem filter_meta_isSome_of (dl : Draglock) (b p : ℤ) (h : 0 ≤ b ∧ b ≤ 32) :
    (draglock_filter_meta dl b p).isSome = true := by
  unfold draglock_filter_meta
  by_cases hb : b = dl.meta_button
  · rw [if_pos hb]
    rfl
  · rw [if_neg hb, buttonIndex_isSome b h]
    rcases hst : dl.lock_state ⟨b.toNat, by omega⟩ <;>
      by_cases hp : p = 0 <;> by_cases hms : dl.meta_state <;> simp [hst, hp, hms]

theorem filter_meta_isSome (dl : Draglock) (b p : ℤ)
    (h0 : 0 ≤ dl.meta_button) (h32 : dl.meta_button ≤ 32) :
    (draglock_filter_meta dl b p).isSome = true ↔ (0 ≤ b ∧ b ≤ 32) := by
  by_cases hb : b = dl.meta_button
  · have hbb : 0 ≤ b ∧ b ≤ 32 := by rw [hb]; exact ⟨h0, h32⟩
    exact iff_of_true (filter_meta_isSome_of dl b p hbb) hbb
  · by_cases h : 0 ≤ b ∧ b ≤ 32
    · exact iff_of_true (filter_meta_isSome_of dl b p h) h
    · refine iff_of_false ?_ h
      unfold draglock_filter_meta
      rw [if_neg hb, buttonIndex_eq_none b h]
      simp

theorem filter_button_isSome_of (dl : Draglock) (b p : ℤ) (h : 0 ≤ b ∧ b ≤ 32) :
    (draglock_filter_button dl b p).isSome = true := by
  unfold draglock_filter_button
  split_ifs
  · rfl
  · cases dl.mode
    · rfl
    · exact filter_meta_isSome_of dl b p h
    · exact (filter_pair_isSome dl b p).mpr h

theorem run_isSome (evs : List (ℤ × ℤ)) :
    ∀ dl : Draglock, (∀ e ∈ evs, 0 ≤ e.1 ∧ e.1 ≤ 32) →
      (draglock_run dl evs).isSome = true := by
  induction evs with
  | nil => intro dl _; rfl
  | cons e rest ih =>
    intro dl h
    obtain ⟨b, p⟩ := e
    have he : 0 ≤ b ∧ b ≤ 32 := h (b, p) (List.mem_cons_self _ _)
    have hs := filter_button_isSome_of dl b p he
    rcases hf : draglock_filter_button dl b p with _ | r
    · rw [hf] at hs; simp at hs
    · obtain ⟨dl', b', p'⟩ := r
      have hr := ih dl' (fun x hx => h x (List.mem_cons_of_mem _ hx))
      rcases hrun : draglock_run dl' rest with _ | s
      · rw [hrun] at hr; simp at hr
      · simp [draglock_run, hf, hrun]

theorem filter_meta_preserves (dl : Draglock) (b p : ℤ) (r : Draglock × ℤ × ℤ)
    (h : draglock_filter_meta dl b p = some r) :
    r.1.mode = dl.mode ∧ r.1.meta_button = dl.meta_button := by
  unfold draglock_filter_meta at h
  by_cases hb : b = dl.meta_button
  · rw [if_pos hb, Option.some.injEq] at h
    subst h
    split_ifs <;> exact ⟨rfl, rfl⟩
  · rw [if_neg hb] at h
    rcases hbi : buttonIndex b with _ | i
    · rw [hbi] at h; exact Option.noConfusion h
    · rw [hbi] at h
      rcases hst : dl.lock_state i
      all_goals simp only [hst] at h
      all_goals split_ifs at h <;>
        (rw [Option.some.injEq] at h; subst h; exact ⟨rfl, rfl⟩)

theorem filter_pair_preserves (dl : Draglock) (b p : ℤ) (r : Draglock × ℤ × ℤ)
    (h : draglock_filter_pair dl b p = some r) :
    r.1.mode = dl.mode ∧ r.1.meta_button = dl.meta_button := by
  unfold draglock_filter_pair at h
  rcases hbi : buttonIndex b with _ | i
  · rw [hbi] at h; exact Option.noConfusion h
  · rw [hbi] at h
    rcases hst : dl.lock_state i
    all_goals simp only [hst] at h
    all_goals split_ifs at h <;>
      (rw [Option.some.injEq] at h; subst h; exact ⟨rfl, rfl⟩)

theorem filter_button_preserves (dl : Draglock) (b p : ℤ) (r : Draglock × ℤ × ℤ)
    (h : draglock_filter_button dl b p = some r) :
    r.1.mode = dl.mode ∧ r.1.meta_button = dl.meta_button := by
  unfold draglock_filter_button at h
  split_ifs at h
  · rw [Option.some.injEq] at h; subst h; exact ⟨rfl, rfl⟩
  · rcases hm : dl.mode
    all_goals simp only [hm] at h
    · rw [Option.some.injEq] at h; subst h; exact ⟨hm, rfl⟩
    · have hp := filter_meta_preserves dl b p r h
      exact ⟨hp.1.trans hm, hp.2⟩
    · have hp := filter_pair_preserves dl b p r h
      exact ⟨hp.1.trans hm, hp.2⟩

theorem init_error_resets (c : Option (List Char))
    (h : (draglock_init_from_string c).1 ≠ 0) :
    (draglock_init_from_string c).2 = freshDraglock := by
  unfold draglock_init_from_string draglock_parse_config at h ⊢
  have hfr : ({ freshDraglock with mode := .disabled } : Draglock) = freshDraglock := rfl
  match c with
  | none => exact absurd rfl h
  | some s =>
    by_cases hs : s = []
    · simp [hs] at h
    · simp only [hs, if_false] at h ⊢
      by_cases h2 : (strtol s).2 = []
      · simp only [h2, if_true] at h ⊢
        split_ifs at h ⊢
        · rfl
        · exact absurd rfl h
        · exact set_meta_error_keeps _ _ h
      · simp only [h2, if_false] at h ⊢
        split at h
        · exact hfr
        · rename_i pairs _
          rcases set_pairs_split ({ freshDraglock with mode := .disabled } : Draglock)
            (pairsArrayToList pairs) with he | he
          · rw [he]; exact hfr
          · exact absurd he h

theorem inv_set_meta (dl : Draglock) (b : ℤ) (h : DraglockInv dl) :
    DraglockInv (draglock_set_meta dl b).2 := by
  unfold draglock_set_meta
  split_ifs with h1 h2
  · exact h
  · intro hm; simp at hm
  · intro hm; simp at hm

theorem inv_set_pairs_of_meta0 (dl : Draglock) (m : List ℤ)
    (h : dl.meta_button = 0) : DraglockInv (draglock_set_pairs dl m).2 := by
  intro _
  rw [set_pairs_meta_button]
  exact h

theorem inv_init (c : Option (List Char)) :
    DraglockInv (draglock_init_from_string c).2 := by
  unfold draglock_init_from_string draglock_parse_config
  match c with
  | none => exact fun _ => rfl
  | some s =>
    by_cases hs : s = []
    · simp only [hs, if_true]
      exact fun _ => rfl
    · simp only [hs, if_false]
      by_cases h2 : (strtol s).2 = []
      · simp only [h2, if_true]
        split_ifs
        · exact fun _ => rfl
        · exact fun _ => rfl
        · exact inv_set_meta freshDraglock _ (fun _ => rfl)
      · simp only [h2, if_false]
        split
        · exact fun _ => rfl
        · exact inv_set_pairs_of_meta0 _ _ rfl

theorem inv_applyOp (dl : Draglock) (op : DraglockOp) (h : DraglockInv dl)
    (hop : op.usesSetPairs = false) : DraglockInv (applyOp dl op) := by
  cases op with
  | opInit c => exact inv_init c
  | opSetMeta b => exact inv_set_meta dl b h
  | opSetPairs m => simp [DraglockOp.usesSetPairs] at hop
  | opFilter b p =>
    simp only [applyOp]
    rcases hf : draglock_filter_button dl b p with _ | r
    · simp only [hf]
      exact h
    · simp only [hf]
      intro hm
      have hp := filter_button_preserves dl b p r hf
      rw [hp.2]
      exact h (hp.1.symm.trans hm)

theorem inv_runOps (ops : List DraglockOp) :
    ∀ dl : Draglock, DraglockInv dl → (∀ op ∈ ops, op.usesSetPairs = false) →
      DraglockInv (runOps dl ops) := by
  induction ops with
  | nil => intro dl h _; exact h
  | cons op rest ih =>
    intro dl h hops
    have h1 := inv_applyOp dl op h (hops op (List.mem_cons_self _ _))
    exact ih (applyOp dl op) h1 (fun x hx => hops x (List.mem_cons_of_mem _ hx))

/-! ### Claims -/

/-- Claim C1: in Meta mode with meta button 10 (fresh per-button state, so
button 3 is in state None), the event sequence
(10,press), (10,release), (3,press), (3,release), (3,press), (3,release)
filters to output buttons 0, 0, 3, 0, 0, 3 with the press flags passed
through: both meta events are suppressed, the first press of 3 passes,
the middle release and press are suppressed, the final release passes. -/
theorem claim_C1 :
    dlMeta10.mode = .meta ∧ dlMeta10.meta_button = 10 ∧
    dlMeta10.lock_state 3 = .state_none ∧
    Option.map Prod.snd
        (draglock_run dlMeta10 [(10, 1), (10, 0), (3, 1), (3, 0), (3, 1), (3, 0)]) =
      some [(0, 1), (0, 0), (3, 1), (0, 0), (0, 1), (3, 0)] := by
  decide

/-- Claim C2: in Pairs mode with mapping[1] = 11, the sequence
(1,press), (1,release), (1,press), (1,release) filters to output buttons
11, 0, 0, 11 (the first press is rewritten to 11, the middle two events
are suppressed, the final release is rewritten to 11); and any button
whose mapping entry is 0 passes through untouched with the state
unchanged. -/
theorem claim_C2 :
    (dlPairs11.mode = .pairs ∧ dlPairs11.lock_pair 1 = 11 ∧
     dlPairs11.lock_state 1 = .state_none ∧
     Option.map Prod.snd (draglock_run dlPairs11 [(1, 1), (1, 0), (1, 1), (1, 0)]) =
       some [(11, 1), (0, 0), (0, 1), (11, 0)]) ∧
    (∀ (dl : Draglock) (b p : ℤ) (i : Fin 33), dl.mode = .pairs →
      buttonIndex b = some i → dl.lock_pair i = 0 →
      draglock_filter_button dl b p = some (dl, b, p)) := by
  constructor
  · decide
  · intro dl b p i hm hbi hz
    unfold draglock_filter_button
    by_cases hb0 : b = 0
    · rw [if_pos hb0, hb0]
    · rw [if_neg hb0]
      simp only [hm]
      unfold draglock_filter_pair
      rw [hbi]
      simp [hz]

/-- Claim C2 witness: the passthrough clause applied to the concrete Pairs
instance at button 2 (whose mapping entry is 0). -/
theorem claim_C2_witness :
    draglock_filter_button dlPairs11 2 1 = some (dlPairs11, 2, 1) :=
  claim_C2.2 dlPairs11 2 1 2 (by decide) (by decide) (by decide)

/-- Claim C3: draglock_init_from_string yields Disabled with success on
NULL, "" and "0"; Meta(5) on "5"; Pairs with mapping[1]=2, mapping[3]=4 on
"1 2 3 4"; an error on the malformed "1 " and the out-of-range "256"; and
every error outcome leaves the instance in Disabled mode with the meta
button, meta state and both per-button tables cleared. -/
theorem claim_C3 :
    ((draglock_init_from_string none).1 = 0 ∧
      (draglock_init_from_string none).2.mode = .disabled) ∧
    ((draglock_init_from_string (some "".toList)).1 = 0 ∧
      (draglock_init_from_string (some "".toList)).2.mode = .disabled) ∧
    ((draglock_init_from_string (some "0".toList)).1 = 0 ∧
      (draglock_init_from_string (some "0".toList)).2.mode = .disabled) ∧
    ((draglock_init_from_string (some "5".toList)).1 = 0 ∧
      (draglock_init_from_string (some "5".toList)).2.mode = .meta ∧
      (draglock_init_from_string (some "5".toList)).2.meta_button = 5) ∧
    ((draglock_init_from_string (some "1 2 3 4".toList)).1 = 0 ∧
      (draglock_init_from_string (some "1 2 3 4".toList)).2.mode = .pairs ∧
      (draglock_init_from_string (some "1 2 3 4".toList)).2.lock_pair 1 = 2 ∧
      (draglock_init_from_string (some "1 2 3 4".toList)).2.lock_pair 3 = 4) ∧
    ((draglock_init_from_string (some "1 ".toList)).1 ≠ 0) ∧
    ((draglock_init_from_string (some "256".toList)).1 ≠ 0) ∧
    (∀ c, (draglock_init_from_string c).1 ≠ 0 →
      (draglock_init_from_string c).2.mode = .disabled ∧
      (draglock_init_from_string c).2.meta_button = 0 ∧
      (draglock_init_from_string c).2.meta_state = false ∧
      (∀ i, (draglock_init_from_string c).2.lock_pair i = 0) ∧
      (∀ i, (draglock_init_from_string c).2.lock_state i = .state_none)) := by
  refine ⟨by decide, by decide, by decide, by decide, by decide, by decide, by decide, ?_⟩
  intro c h
  rw [init_error_resets c h]
  exact ⟨rfl, rfl, rfl, fun _ => rfl, fun _ => rfl⟩

/-- Claim C3 witness: the error-reset clause applied to the out-of-range
config "256". -/
theorem claim_C3_witness :
    (draglock_init_from_string (some "256".toList)).2.mode = .disabled ∧
    (draglock_init_from_string (some "256".toList)).2.meta_button = 0 ∧
    (draglock_init_from_string (some "256".toList)).2.meta_state = false ∧
    (∀ i, (draglock_init_from_string (some "256".toList)).2.lock_pair i = 0) ∧
    (∀ i, (draglock_init_from_string (some "256".toList)).2.lock_state i = .state_none) :=
  claim_C3.2.2.2.2.2.2.2 (some "256".toList) (by decide)

/-- Claim C8: draglock_filter_button with button 0 returns success with
the button, press flag and the whole instance state unchanged, in every
mode. -/
theorem claim_C8 (dl : Draglock) (p : ℤ) :
    draglock_filter_button dl 0 p = some (dl, 0, p) := by
  simp [draglock_filter_button]

/-- Claim C9 counterexample: the public-setter sequence set_meta(5) then
set_pairs({1 → 11}) reaches a state with mode Pairs and nonzero
meta_button, so the claimed unreachability is false. -/
theorem claim_C9_counterexample :
    (runOps freshDraglock [DraglockOp.opSetMeta 5, DraglockOp.opSetPairs m33_1_to_11]).mode
        = .pairs ∧
    (runOps freshDraglock [DraglockOp.opSetMeta 5, DraglockOp.opSetPairs m33_1_to_11]).meta_button
        ≠ 0 := by
  decide

/-- Claim C9 amended: draglock_set_pairs never clears meta_button, so the
state (mode = Pairs, meta_button ≠ 0) IS reachable via the public setters
(set_meta then set_pairs).  What does hold: any sequence of
draglock_init_from_string, draglock_set_meta and draglock_filter_button
calls — i.e. any sequence avoiding draglock_set_pairs — keeps that state
unreachable from a fresh instance. -/
theorem claim_C9_amended (ops : List DraglockOp)
    (hops : ∀ op ∈ ops, op.usesSetPairs = false) :
    ¬((runOps freshDraglock ops).mode = .pairs ∧
      (runOps freshDraglock ops).meta_button ≠ 0) := by
  rintro ⟨hm, hmb⟩
  exact hmb (inv_runOps ops freshDraglock (fun _ => rfl) hops hm)

/-- Claim C9 amended witness: the no-set_pairs sequence init("5") followed
by a filtered click cannot land in the special-case state. -/
theorem claim_C9_amended_witness :
    ¬((runOps freshDraglock
        [DraglockOp.opInit (some "5".toList), DraglockOp.opFilter 3 1]).mode = .pairs ∧
      (runOps freshDraglock
        [DraglockOp.opInit (some "5".toList), DraglockOp.opFilter 3 1]).meta_button ≠ 0) :=
  claim_C9_amended
    [DraglockOp.opInit (some "5".toList), DraglockOp.opFilter 3 1] (by decide)

/-- Claim C10 counterexample: for the (artificial) Meta-mode instance
whose meta_button is 40, filtering button 40 makes no array access at all
(the meta branch returns first), so the filter succeeds even though the
button is outside [0, MAX_BUTTONS]: the claimed equivalence fails. -/
theorem claim_C10_counterexample :
    (dlMetaOOR.mode = .meta ∨ dlMetaOOR.mode = .pairs) ∧
    ¬(((draglock_filter_button dlMetaOOR 40 1).isSome = true) ↔
        ((0 : ℤ) ≤ 40 ∧ (40 : ℤ) ≤ 32)) := by
  decide

/-- Claim C10 amended: the in-bounds equivalence holds for every
Pairs-mode instance, and for every Meta-mode instance whose own
meta_button lies in [0, 32] (true of every instance the public API can
build); and with every event button in [0, 32] the out-of-bounds branch
is unreachable over any event sequence, in any mode. -/
theorem claim_C10_amended :
    (∀ (dl : Draglock) (b p : ℤ), dl.mode = .pairs →
        ((draglock_filter_button dl b p).isSome = true ↔ (0 ≤ b ∧ b ≤ 32))) ∧
    (∀ (dl : Draglock) (b p : ℤ), dl.mode = .meta →
        0 ≤ dl.meta_button → dl.meta_button ≤ 32 →
        ((draglock_filter_button dl b p).isSome = true ↔ (0 ≤ b ∧ b ≤ 32))) ∧
    (∀ (dl : Draglock) (evs : List (ℤ × ℤ)),
        (∀ e ∈ evs, 0 ≤ e.1 ∧ e.1 ≤ 32) →
        (draglock_run dl evs).isSome = true) := by
  refine ⟨?_, ?_, ?_⟩
  · intro dl b p hm
    unfold draglock_filter_button
    by_cases hb0 : b = 0
    · rw [if_pos hb0]
      subst hb0
      simp
    · rw [if_neg hb0]
      simp only [hm]
      exact filter_pair_isSome dl b p
  · intro dl b p hm h0 h32
    unfold draglock_filter_button
    by_cases hb0 : b = 0
    · rw [if_pos hb0]
      subst hb0
      simp
    · rw [if_neg hb0]
      simp only [hm]
      exact filter_meta_isSome dl b p h0 h32
  · intro dl evs h
    exact run_isSome evs dl h

/-- Claim C10 amended witness: the safety clause applied to a fresh
instance and one in-range event. -/
theorem claim_C10_amended_witness :
    (draglock_run freshDraglock [((3 : ℤ), (1 : ℤ))]).isSome = true :=
  claim_C10_amended.2.2 freshDraglock [(3, 1)] (by decide)

theorem set_pairs_success (dl : Draglock) (m : List ℤ)
    (hc1 : ¬(m.length = 0 ∨ m.getD 0 0 ≠ 0))
    (hc2 : ¬(m.any (fun a => decide (a < 0 ∨ (DRAGLOCK_MAX_BUTTONS : ℤ) ≤ a)) = true)) :
    draglock_set_pairs dl m =
      (0, { dl with
            mode := if m.any (fun a => decide (a ≠ 0)) then .pairs else .disabled,
            lock_pair := fun i =>
              if h : (i : ℕ) < m.length then m.get ⟨i, h⟩ else dl.lock_pair i }) := by
  unfold draglock_set_pairs
  rw [if_neg hc1, if_neg hc2]

theorem set_pairs_get_pairs_spec (dl : Draglock) (m buf : List ℤ)
    (hmb : dl.meta_button = 0) (hlen : m.length = 33) (h0 : m.getD 0 0 = 0)
    (hrange : ∀ a ∈ m, 0 ≤ a ∧ a < 32) (hex : ∃ a ∈ m, a ≠ 0)
    (hbuf : 33 ≤ buf.length) :
    (draglock_set_pairs dl m).1 = 0 ∧
    (∀ j, j < 33 →
      (draglock_get_pairs (draglock_set_pairs dl m).2 buf).2.getD j 0 = m.getD j 0) ∧
    (∀ j, 33 ≤ j →
      (draglock_get_pairs (draglock_set_pairs dl m).2 buf).2.getD j 0 = 0) ∧
    (∀ j, j < 33 → m.getD j 0 ≠ 0 →
      j ≤ (draglock_get_pairs (draglock_set_pairs dl m).2 buf).1) ∧
    ((draglock_get_pairs (draglock_set_pairs dl m).2 buf).1 < 33 ∧
      m.getD (draglock_get_pairs (draglock_set_pairs dl m).2 buf).1 0 ≠ 0) := by
  have hc1 : ¬(m.length = 0 ∨ m.getD 0 0 ≠ 0) := by
    rw [not_or]
    refine ⟨by omega, by simpa using h0⟩
  have hc2 : ¬(m.any (fun a => decide (a < 0 ∨ (DRAGLOCK_MAX_BUTTONS : ℤ) ≤ a)) = true) := by
    rw [List.any_eq_true]
    rintro ⟨a, ha, hd⟩
    rcases hrange a ha with ⟨h1, h2⟩
    rw [decide_eq_true_eq] at hd
    unfold DRAGLOCK_MAX_BUTTONS at hd
    push_cast at hd
    omega
  have hAnyNz : m.any (fun a => decide (a ≠ 0)) = true := by
    rw [List.any_eq_true]
    obtain ⟨a, ha, hnz⟩ := hex
    exact ⟨a, ha, by rwa [decide_eq_true_eq]⟩
  have hsp := set_pairs_success dl m hc1 hc2
  have hmodeR : (draglock_set_pairs dl m).2.mode = .pairs := by
    rw [hsp]
    show (if (m.any fun a => decide (a ≠ 0)) = true then DraglockMode.pairs
          else DraglockMode.disabled) = DraglockMode.pairs
    rw [if_pos hAnyNz]
  have hmbR : (draglock_set_pairs dl m).2.meta_button = 0 :=
    (set_pairs_meta_button dl m).trans hmb
  have hlp : ∀ j, ∀ hj : j < 33,
      (draglock_set_pairs dl m).2.lock_pair ⟨j, hj⟩ = m.getD j 0 := by
    intro j hj
    have hjm : j < m.length := by omega
    rw [hsp]
    show (if h : j < m.length then m.get ⟨j, h⟩ else dl.lock_pair ⟨j, hj⟩) = m.getD j 0
    rw [dif_pos hjm, List.get_eq_getElem, List.getD_eq_getElem?_getD,
      List.getElem?_eq_getElem hjm]
    rfl
  have key : draglock_get_pairs (draglock_set_pairs dl m).2 buf =
      ((get_pairs_loop (draglock_set_pairs dl m).2 buf.length 33 0
          (List.replicate buf.length 0) 0).2,
       (get_pairs_loop (draglock_set_pairs dl m).2 buf.length 33 0
          (List.replicate buf.length 0) 0).1) := by
    unfold draglock_get_pairs
    rw [if_neg (by simp [hmodeR]), if_neg (by simp [hmbR])]
  obtain ⟨s1, s2, s3, s4, s5⟩ :=
    get_pairs_loop_spec (draglock_set_pairs dl m).2 buf.length 33 0
      (List.replicate buf.length 0) 0
      (List.length_replicate _ _) (Nat.zero_le _) (by omega)
      (fun j _ => getD_replicate _ _)
      (fun j hj hji => absurd hji (Nat.not_lt_zero j))
      (fun j hj hji _ => absurd hji (Nat.not_lt_zero j))
      (Or.inl rfl)
  have hmin : min buf.length 33 = 33 := min_eq_right hbuf
  refine ⟨by rw [hsp], ?_, ?_, ?_, ?_⟩
  · intro j hjlt
    rw [key]
    rw [show ((get_pairs_loop (draglock_set_pairs dl m).2 buf.length 33 0
        (List.replicate buf.length 0) 0).2,
       (get_pairs_loop (draglock_set_pairs dl m).2 buf.length 33 0
          (List.replicate buf.length 0) 0).1).2.getD j 0 =
      (get_pairs_loop (draglock_set_pairs dl m).2 buf.length 33 0
          (List.replicate buf.length 0) 0).1.getD j 0 from rfl]
    rw [s2 j hjlt (by omega), hlp j hjlt]
  · intro j hjge
    rw [key]
    exact s3 j (by omega)
  · intro j hjlt hnz
    rw [key]
    exact s4 j hjlt (by omega) (by rw [hlp j hjlt]; exact hnz)
  · rw [key]
    rcases s5 with hz | ⟨hl, hlt, hnz⟩
    · exfalso
      obtain ⟨a, ha, hanz⟩ := hex
      obtain ⟨⟨j, hjlen⟩, hget⟩ := List.mem_iff_get.mp ha
      have hj33 : j < 33 := by omega
      have hja : m.getD j 0 = a := by
        rw [← hget, List.get_eq_getElem, List.getD_eq_getElem?_getD,
          List.getElem?_eq_getElem hjlen]
        rfl
      have hj0 : j ≤ (get_pairs_loop (draglock_set_pairs dl m).2 buf.length 33 0
          (List.replicate buf.length 0) 0).2 :=
        s4 j hj33 (by omega) (by rw [hlp j hj33, hja]; exact hanz)
      rw [hz] at hj0
      have hj00 : j = 0 := by omega
      rw [hj00] at hja
      exact hanz (hja.symm.trans h0)
    · exact ⟨by omega, by rw [← hlp _ hl]; exact hnz⟩

/-- Claim C7 counterexample: after the successful calls set_meta(5) and
set_pairs(m) with m = {1 → 11} (a valid mapping: m[0] = 0, every entry in
range, entry 1 nonzero), draglock_get_pairs on a 33-slot buffer returns
count 1 with buffer[1] = 0 instead of m's nonzero prefix (m[1] = 11) —
set_pairs does not clear meta_button, so the single-element special case
fires. -/
theorem claim_C7_counterexample :
    (draglock_set_meta freshDraglock 5).1 = 0 ∧
    (draglock_set_pairs (draglock_set_meta freshDraglock 5).2 m33_1_to_11).1 = 0 ∧
    m33_1_to_11.getD 0 0 = 0 ∧ (∀ a ∈ m33_1_to_11, 0 ≤ a ∧ a < 32) ∧
    m33_1_to_11.getD 1 0 = 11 ∧
    (draglock_get_pairs dlMetaThenPairs (List.replicate 33 0)).1 = 1 ∧
    (draglock_get_pairs dlMetaThenPairs (List.replicate 33 0)).2.getD 1 0 = 0 := by
  decide

/-- Claim C7 amended: the meta round trip holds as claimed; the pairs
round trip additionally requires the instance to carry no stale state
(meta_button = 0, e.g. freshly initialized — otherwise get_pairs hits the
single-element meta_button special case) and m to cover the whole
33-entry table; then set_pairs succeeds, get_pairs on a buffer of at
least 33 slots returns exactly m's entries (zero-padded above 33), and
the returned count is the greatest nonzero index of m (the number of
meaningful entries after the always-zero index 0); the count is 0
whenever the mode is not Pairs, with the buffer untouched. -/
theorem claim_C7_amended :
    (∀ (dl : Draglock) (b : ℤ), 1 ≤ b → b < 32 →
        (draglock_set_meta dl b).1 = 0 ∧
        draglock_get_meta (draglock_set_meta dl b).2 = b) ∧
    (∀ (dl : Draglock) (m buf : List ℤ),
        dl.meta_button = 0 → m.length = 33 → m.getD 0 0 = 0 →
        (∀ a ∈ m, 0 ≤ a ∧ a < 32) → (∃ a ∈ m, a ≠ 0) → 33 ≤ buf.length →
        (draglock_set_pairs dl m).1 = 0 ∧
        (∀ j, j < 33 →
          (draglock_get_pairs (draglock_set_pairs dl m).2 buf).2.getD j 0 = m.getD j 0) ∧
        (∀ j, 33 ≤ j →
          (draglock_get_pairs (draglock_set_pairs dl m).2 buf).2.getD j 0 = 0) ∧
        (∀ j, j < 33 → m.getD j 0 ≠ 0 →
          j ≤ (draglock_get_pairs (draglock_set_pairs dl m).2 buf).1) ∧
        ((draglock_get_pairs (draglock_set_pairs dl m).2 buf).1 < 33 ∧
          m.getD (draglock_get_pairs (draglock_set_pairs dl m).2 buf).1 0 ≠ 0)) ∧
    (∀ (dl : Draglock) (buf : List ℤ), dl.mode ≠ .pairs →
        draglock_get_pairs dl buf = (0, buf)) := by
  refine ⟨?_, ?_, ?_⟩
  · intro dl b h1 h2
    have hne : ¬(b < 0 ∨ (DRAGLOCK_MAX_BUTTONS : ℤ) ≤ b) := by
      unfold DRAGLOCK_MAX_BUTTONS
      push_cast
      omega
    unfold draglock_set_meta draglock_get_meta
    rw [if_neg hne]
    refine ⟨rfl, ?_⟩
    have hb0 : b ≠ 0 := by omega
    simp [hb0]
  · intro dl m buf hmb hlen h0 hrange hex hbuf
    exact set_pairs_get_pairs_spec dl m buf hmb hlen h0 hrange hex hbuf
  · intro dl buf h
    unfold draglock_get_pairs
    rw [if_pos h]

/-- Claim C7 amended witness: the pairs round trip applied to a fresh
instance with m = {1 → 11} and a 33-slot buffer, plus the non-Pairs
clause on the Meta instance. -/
theorem claim_C7_amended_witness :
    ((draglock_set_pairs freshDraglock m33_1_to_11).1 = 0 ∧
     (draglock_get_pairs (draglock_set_pairs freshDraglock m33_1_to_11).2
        (List.replicate 33 0)).1 < 33) ∧
    draglock_get_pairs dlMeta10 [0, 0] = (0, [0, 0]) :=
  ⟨⟨(claim_C7_amended.2.1 freshDraglock m33_1_to_11 (List.replicate 33 0)
      rfl (by decide) (by decide) (by decide) (by decide) (by decide)).1,
    (claim_C7_amended.2.1 freshDraglock m33_1_to_11 (List.replicate 33 0)
      rfl (by decide) (by decide) (by decide) (by decide) (by decide)).2.2.2.2.1⟩,
   claim_C7_amended.2.2 dlMeta10 [0, 0] (by decide)⟩

/-! ### Bridge: fraction arithmetic versus rational semantics -/

theorem Q.ofInt_den (z : ℤ) : (Q.ofInt z).den = 1 := rfl

theorem Q.sub_den (p q : Q) : (p - q).den = p.den * q.den := rfl

theorem Q.add_den (p q : Q) : (p + q).den = p.den * q.den := rfl

theorem Q.mul_den (p q : Q) : (p * q).den = p.den * q.den := rfl

theorem Q.div_den (p q : Q) : (p / q).den = p.den * q.num := rfl

theorem Q.toRat_ofInt (z : ℤ) : (Q.ofInt z).toRat = (z : ℚ) := by
  unfold Q.toRat Q.ofInt
  simp

theorem Q.toRat_add (p q : Q) (hp : p.den ≠ 0) (hq : q.den ≠ 0) :
    (p + q).toRat = p.toRat + q.toRat := by
  have hp' : (p.den : ℚ) ≠ 0 := Int.cast_ne_zero.mpr hp
  have hq' : (q.den : ℚ) ≠ 0 := Int.cast_ne_zero.mpr hq
  show (Q.add p q).toRat = _
  unfold Q.toRat Q.add
  push_cast
  field_simp
  try ring

theorem Q.toRat_sub (p q : Q) (hp : p.den ≠ 0) (hq : q.den ≠ 0) :
    (p - q).toRat = p.toRat - q.toRat := by
  have hp' : (p.den : ℚ) ≠ 0 := Int.cast_ne_zero.mpr hp
  have hq' : (q.den : ℚ) ≠ 0 := Int.cast_ne_zero.mpr hq
  show (Q.sub p q).toRat = _
  unfold Q.toRat Q.sub
  push_cast
  field_simp
  try ring

theorem Q.toRat_mul (p q : Q) (hp : p.den ≠ 0) (hq : q.den ≠ 0) :
    (p * q).toRat = p.toRat * q.toRat := by
  have hp' : (p.den : ℚ) ≠ 0 := Int.cast_ne_zero.mpr hp
  have hq' : (q.den : ℚ) ≠ 0 := Int.cast_ne_zero.mpr hq
  show (Q.mul p q).toRat = _
  unfold Q.toRat Q.mul
  push_cast
  field_simp

theorem Q.toRat_div (p q : Q) (hp : p.den ≠ 0) (hq : q.den ≠ 0) :
    (p / q).toRat = p.toRat / q.toRat := by
  have hp' : (p.den : ℚ) ≠ 0 := Int.cast_ne_zero.mpr hp
  have hq' : (q.den : ℚ) ≠ 0 := Int.cast_ne_zero.mpr hq
  show (Q.div p q).toRat = _
  unfold Q.toRat Q.div
  by_cases hn : q.num = 0
  · rw [hn]
    push_cast
    simp
  · have hn' : (q.num : ℚ) ≠ 0 := Int.cast_ne_zero.mpr hn
    push_cast
    field_simp
    try ring

theorem Q.le_iff (p q : Q) (hp : p.den ≠ 0) (hq : q.den ≠ 0) :
    Q.le p q ↔ p.toRat ≤ q.toRat := by
  have hp' : (p.den : ℚ) ≠ 0 := Int.cast_ne_zero.mpr hp
  have hq' : (q.den : ℚ) ≠ 0 := Int.cast_ne_zero.mpr hq
  have key : p.toRat - q.toRat =
      (((p.num * q.den - q.num * p.den : ℤ) : ℚ)) / (((p.den * q.den : ℤ) : ℚ)) := by
    unfold Q.toRat
    rw [div_sub_div _ _ hp' hq']
    push_cast
    ring
  have h2 : p.toRat ≤ q.toRat ↔
      ((p.num * q.den - q.num * p.den) * (p.den * q.den) : ℤ) ≤ 0 := by
    rw [← sub_nonpos, key, div_nonpos_iff, ← mul_nonpos_iff, ← Int.cast_mul,
      Int.cast_nonpos]
  unfold Q.le
  exact h2.symm

theorem Q.lt_iff (p q : Q) (hp : p.den ≠ 0) (hq : q.den ≠ 0) :
    Q.lt p q ↔ p.toRat < q.toRat := by
  have hp' : (p.den : ℚ) ≠ 0 := Int.cast_ne_zero.mpr hp
  have hq' : (q.den : ℚ) ≠ 0 := Int.cast_ne_zero.mpr hq
  have key : p.toRat - q.toRat =
      (((p.num * q.den - q.num * p.den : ℤ) : ℚ)) / (((p.den * q.den : ℤ) : ℚ)) := by
    unfold Q.toRat
    rw [div_sub_div _ _ hp' hq']
    push_cast
    ring
  have h2 : p.toRat < q.toRat ↔
      ((p.num * q.den - q.num * p.den) * (p.den * q.den) : ℤ) < 0 := by
    rw [← sub_neg, key, div_neg_iff, ← mul_neg_iff, ← Int.cast_mul,
      Int.cast_lt_zero]
  unfold Q.lt
  exact h2.symm

theorem Q.trunc_eq_of_pos (n d : ℤ) (hd : 0 < d) :
    (⟨n, d⟩ : Q).trunc = ratTrunc ((n : ℚ) / (d : ℚ)) := by
  have hdq : (0 : ℚ) < (d : ℚ) := by exact_mod_cast hd
  have hcast : ((d.toNat : ℕ) : ℚ) = (d : ℚ) := by
    rw [← Int.cast_natCast, Int.toNat_of_nonneg (le_of_lt hd)]
  by_cases hn : 0 ≤ n
  · have hx : (0 : ℚ) ≤ (n : ℚ) / (d : ℚ) :=
      div_nonneg (by exact_mod_cast hn) (le_of_lt hdq)
    unfold Q.trunc ratTrunc
    rw [if_neg (not_lt.mpr hx)]
    show n.tdiv d = _
    rw [Int.tdiv_eq_ediv hn (le_of_lt hd), ← hcast, Rat.floor_intCast_div_natCast,
      Int.toNat_of_nonneg (le_of_lt hd)]
  · push_neg at hn
    have hx : (n : ℚ) / (d : ℚ) < 0 :=
      div_neg_of_neg_of_pos (by exact_mod_cast hn) hdq
    unfold Q.trunc ratTrunc
    rw [if_pos hx]
    show n.tdiv d = -⌊-((n : ℚ) / (d : ℚ))⌋
    have h1 : -((n : ℚ) / (d : ℚ)) = ((-n : ℤ) : ℚ) / (d : ℚ) := by
      push_cast
      ring
    have h2 : (0 : ℤ) ≤ -n := by omega
    rw [h1, ← hcast, Rat.floor_intCast_div_natCast,
      Int.toNat_of_nonneg (le_of_lt hd), ← Int.tdiv_eq_ediv h2 (le_of_lt hd),
      Int.neg_tdiv, neg_neg]

theorem Q.trunc_toRat (q : Q) (h : q.den ≠ 0) : q.trunc = ratTrunc q.toRat := by
  rcases lt_trichotomy q.den 0 with hneg | hz | hpos
  · have key := Q.trunc_eq_of_pos (-q.num) (-q.den) (by omega)
    have h1 : (⟨-q.num, -q.den⟩ : Q).trunc = q.trunc := by
      show (-q.num).tdiv (-q.den) = q.num.tdiv q.den
      rw [Int.tdiv_neg, Int.neg_tdiv, neg_neg]
    have h2 : ((-q.num : ℤ) : ℚ) / ((-q.den : ℤ) : ℚ) = q.toRat := by
      unfold Q.toRat
      push_cast
      rw [neg_div_neg_eq]
    rw [← h1, key, h2]
  · exact absurd hz h
  · exact Q.trunc_eq_of_pos q.num q.den hpos

theorem ratTrunc_intCast (z : ℤ) : ratTrunc ((z : ℤ) : ℚ) = z := by
  unfold ratTrunc
  split_ifs with h
  · rw [← Int.cast_neg, Int.floor_intCast, neg_neg]
  · exact Int.floor_intCast z

theorem ratTrunc_nonneg (x : ℚ) (h : 0 ≤ x) : 0 ≤ ratTrunc x := by
  unfold ratTrunc
  rw [if_neg (not_lt.mpr h)]
  exact Int.floor_nonneg.mpr h

theorem ratTrunc_le_intCast (x : ℚ) (r : ℤ) (h0 : 0 ≤ x) (h : x ≤ (r : ℚ)) :
    ratTrunc x ≤ r := by
  unfold ratTrunc
  rw [if_neg (not_lt.mpr h0)]
  calc ⌊x⌋ ≤ ⌊(r : ℚ)⌋ := Int.floor_le_floor h
    _ = r := Int.floor_intCast r

theorem ratTrunc_mono_nonneg (x y : ℚ) (h0 : 0 ≤ x) (hxy : x ≤ y) :
    ratTrunc x ≤ ratTrunc y := by
  unfold ratTrunc
  rw [if_neg (not_lt.mpr h0), if_neg (not_lt.mpr (le_trans h0 hxy))]
  exact Int.floor_le_floor hxy

/-! ### Rasterizer: pointwise behaviour of the drawing primitives -/

theorem line_loop_succ (slope offset : Q) (stop : ℤ) (fuel : ℕ) (x : ℤ)
    (curve : ℤ → Pt) :
    line_loop slope offset stop (fuel + 1) x curve =
      if x ≤ stop then
        line_loop slope offset stop fuel (x + 1)
          (fun j => if j = x then
              ⟨x, (slope * Q.ofInt x + offset).trunc⟩
            else curve j)
      else curve := rfl

theorem line_loop_at (slope offset : Q) (stop : ℤ) :
    ∀ (fuel : ℕ) (x0 : ℤ) (curve : ℤ → Pt) (j : ℤ),
      line_loop slope offset stop fuel x0 curve j =
        if x0 ≤ j ∧ j ≤ stop ∧ j < x0 + fuel then
          ⟨j, (slope * Q.ofInt j + offset).trunc⟩
        else curve j := by
  intro fuel
  induction fuel with
  | zero =>
    intro x0 curve j
    rw [if_neg (by omega)]
    rfl
  | succ fuel ih =>
    intro x0 curve j
    rw [line_loop_succ]
    by_cases hx : x0 ≤ stop
    · rw [if_pos hx, ih]
      split_ifs <;> try rfl
      all_goals try (exfalso; omega)
      all_goals simp_all
    · rw [if_neg hx, if_neg (by omega)]

theorem line_between_at_eq (a b : Pt) (h : a.x = b.x) (curve : ℤ → Pt) (j : ℤ) :
    line_between a b curve j = if j = a.x then (⟨a.x, a.y⟩ : Pt) else curve j := by
  unfold line_between
  rw [if_pos h]

theorem line_between_at_ne (a b : Pt) (h : ¬(a.x = b.x)) (curve : ℤ → Pt) (j : ℤ) :
    line_between a b curve j =
      if a.x ≤ j ∧ j ≤ b.x then
        (⟨j, ((Q.ofInt (b.y - a.y) / Q.ofInt (b.x - a.x)) * Q.ofInt j +
          (Q.ofInt a.y - (Q.ofInt (b.y - a.y) / Q.ofInt (b.x - a.x)) * Q.ofInt a.x)).trunc⟩ : Pt)
      else curve j := by
  unfold line_between
  rw [if_neg h, line_loop_at]
  split_ifs with h1 h2 h2
  · rfl
  · exact absurd ⟨h1.1, h1.2.1⟩ h2
  · exact absurd ⟨h2.1, h2.2, by omega⟩ h1
  · rfl

/-! ### Rasterizer: de Casteljau sample points stay on the canvas -/

theorem interp_expr_den_ne (t : Q) (ht : t.den ≠ 0) (a b : ℤ) :
    ((Q.ofInt 1 - t) * Q.ofInt a + t * Q.ofInt b).den ≠ 0 := by
  rw [Q.add_den, Q.mul_den, Q.mul_den, Q.sub_den, Q.ofInt_den, Q.ofInt_den, Q.ofInt_den]
  simpa using ht

theorem interp_expr_toRat (t : Q) (ht : t.den ≠ 0) (a b : ℤ) :
    ((Q.ofInt 1 - t) * Q.ofInt a + t * Q.ofInt b).toRat
      = (1 - t.toRat) * (a : ℚ) + t.toRat * (b : ℚ) := by
  have hone : (Q.ofInt 1).den ≠ 0 := by rw [Q.ofInt_den]; exact one_ne_zero
  have ha' : (Q.ofInt a).den ≠ 0 := by rw [Q.ofInt_den]; exact one_ne_zero
  have hb' : (Q.ofInt b).den ≠ 0 := by rw [Q.ofInt_den]; exact one_ne_zero
  have h1 : (Q.ofInt 1 - t).den ≠ 0 := by
    rw [Q.sub_den, Q.ofInt_den]
    simpa using ht
  have h2 : ((Q.ofInt 1 - t) * Q.ofInt a).den ≠ 0 := by
    rw [Q.mul_den, Q.ofInt_den]
    simpa using h1
  have h3 : (t * Q.ofInt b).den ≠ 0 := by
    rw [Q.mul_den, Q.ofInt_den]
    simpa using ht
  rw [Q.toRat_add _ _ h2 h3, Q.toRat_mul _ _ h1 ha', Q.toRat_mul _ _ ht hb',
    Q.toRat_sub _ _ hone ht, Q.toRat_ofInt, Q.toRat_ofInt, Q.toRat_ofInt, Int.cast_one]

theorem interp_trunc_bounds (r : ℤ) (t : Q) (ht : t.den ≠ 0)
    (ht0 : 0 ≤ t.toRat) (ht1 : t.toRat ≤ 1) (a b : ℤ)
    (ha : 0 ≤ a ∧ a ≤ r) (hb : 0 ≤ b ∧ b ≤ r) :
    0 ≤ ((Q.ofInt 1 - t) * Q.ofInt a + t * Q.ofInt b).trunc ∧
    ((Q.ofInt 1 - t) * Q.ofInt a + t * Q.ofInt b).trunc ≤ r := by
  rw [Q.trunc_toRat _ (interp_expr_den_ne t ht a b), interp_expr_toRat t ht a b]
  have haq : (0 : ℚ) ≤ (a : ℚ) ∧ (a : ℚ) ≤ (r : ℚ) :=
    ⟨by exact_mod_cast ha.1, by exact_mod_cast ha.2⟩
  have hbq : (0 : ℚ) ≤ (b : ℚ) ∧ (b : ℚ) ≤ (r : ℚ) :=
    ⟨by exact_mod_cast hb.1, by exact_mod_cast hb.2⟩
  have hv0 : 0 ≤ (1 - t.toRat) * (a : ℚ) + t.toRat * (b : ℚ) := by
    nlinarith [mul_nonneg (by linarith : (0 : ℚ) ≤ 1 - t.toRat) haq.1,
      mul_nonneg ht0 hbq.1]
  have hvr : (1 - t.toRat) * (a : ℚ) + t.toRat * (b : ℚ) ≤ (r : ℚ) := by
    nlinarith [mul_le_mul_of_nonneg_left haq.2 (by linarith : (0 : ℚ) ≤ 1 - t.toRat),
      mul_le_mul_of_nonneg_left hbq.2 ht0]
  exact ⟨ratTrunc_nonneg _ hv0, ratTrunc_le_intCast _ r hv0 hvr⟩

theorem interp_bounds (r : ℤ) (t : Q) (ht : t.den ≠ 0)
    (ht0 : 0 ≤ t.toRat) (ht1 : t.toRat ≤ 1) :
    ∀ l : List Pt, (∀ p ∈ l, PtInRange r p) → ∀ p ∈ interp t l, PtInRange r p := by
  intro l
  induction l with
  | nil => intro _ p hp; simp [interp] at hp
  | cons a tail ih =>
    intro hl p hp
    cases tail with
    | nil => simp [interp] at hp
    | cons b rest =>
      rw [show interp t (a :: b :: rest) =
          (⟨((Q.ofInt 1 - t) * Q.ofInt a.x + t * Q.ofInt b.x).trunc,
            ((Q.ofInt 1 - t) * Q.ofInt a.y + t * Q.ofInt b.y).trunc⟩ : Pt)
            :: interp t (b :: rest) from rfl] at hp
      rcases List.mem_cons.mp hp with h | h
      · subst h
        have ha := hl a (by simp)
        have hb := hl b (by simp)
        have hx := interp_trunc_bounds r t ht ht0 ht1 a.x b.x ⟨ha.1, ha.2.1⟩ ⟨hb.1, hb.2.1⟩
        have hy := interp_trunc_bounds r t ht ht0 ht1 a.y b.y ⟨ha.2.2.1, ha.2.2.2⟩ ⟨hb.2.2.1, hb.2.2.2⟩
        exact ⟨hx.1, hx.2, hy.1, hy.2⟩
      · exact ih (fun q hq => hl q (List.mem_cons_of_mem _ hq)) p h

theorem interp_diag (t : Q) :
    ∀ l : List Pt, (∀ p ∈ l, PtDiag p) → ∀ p ∈ interp t l, PtDiag p := by
  intro l
  induction l with
  | nil => intro _ p hp; simp [interp] at hp
  | cons a tail ih =>
    intro hl p hp
    cases tail with
    | nil => simp [interp] at hp
    | cons b rest =>
      rw [show interp t (a :: b :: rest) =
          (⟨((Q.ofInt 1 - t) * Q.ofInt a.x + t * Q.ofInt b.x).trunc,
            ((Q.ofInt 1 - t) * Q.ofInt a.y + t * Q.ofInt b.y).trunc⟩ : Pt)
            :: interp t (b :: rest) from rfl] at hp
      rcases List.mem_cons.mp hp with h | h
      · subst h
        have ha := hl a (by simp)
        have hb := hl b (by simp)
        show ((Q.ofInt 1 - t) * Q.ofInt a.x + t * Q.ofInt b.x).trunc
            = ((Q.ofInt 1 - t) * Q.ofInt a.y + t * Q.ofInt b.y).trunc
        rw [show a.x = a.y from ha, show b.x = b.y from hb]
      · exact ih (fun q hq => hl q (List.mem_cons_of_mem _ hq)) p h

theorem decasteljau_bounds (r : ℤ) (hr : 0 ≤ r) (t : Q) (ht : t.den ≠ 0)
    (ht0 : 0 ≤ t.toRat) (ht1 : t.toRat ≤ 1) :
    ∀ (fuel : ℕ) (l : List Pt), (∀ p ∈ l, PtInRange r p) →
      PtInRange r (decasteljau fuel l t) := by
  intro fuel
  induction fuel with
  | zero =>
    intro l hl
    match l with
    | [] => exact ⟨le_refl 0, hr, le_refl 0, hr⟩
    | [p] => exact hl p (by simp)
    | a :: b :: rest => exact ⟨le_refl 0, hr, le_refl 0, hr⟩
  | succ fuel ih =>
    intro l hl
    match l with
    | [] =>
      show PtInRange r (decasteljau fuel (interp t []) t)
      exact ih _ (by simp [interp])
    | [p] => exact hl p (by simp)
    | a :: b :: rest =>
      show PtInRange r (decasteljau fuel (interp t (a :: b :: rest)) t)
      exact ih _ (interp_bounds r t ht ht0 ht1 _ hl)

theorem decasteljau_diag (t : Q) :
    ∀ (fuel : ℕ) (l : List Pt), (∀ p ∈ l, PtDiag p) →
      PtDiag (decasteljau fuel l t) := by
  intro fuel
  induction fuel with
  | zero =>
    intro l hl
    match l with
    | [] => exact rfl
    | [p] => exact hl p (by simp)
    | a :: b :: rest => exact rfl
  | succ fuel ih =>
    intro l hl
    match l with
    | [] =>
      show PtDiag (decasteljau fuel (interp t []) t)
      exact ih _ (by simp [interp])
    | [p] => exact hl p (by simp)
    | a :: b :: rest =>
      show PtDiag (decasteljau fuel (interp t (a :: b :: rest)) t)
      exact ih _ (interp_diag t _ hl)

/-! ### Rasterizer: the 50 sample points -/

theorem flatten_t_den_ne (n i : ℤ) (hn : n ≠ 0) :
    ((Q.ofInt 1 * Q.ofInt i) / Q.ofInt n).den ≠ 0 := by
  rw [Q.div_den, Q.mul_den, Q.ofInt_den, Q.ofInt_den]
  show 1 * 1 * (Q.ofInt n).num ≠ 0
  simpa [Q.ofInt] using hn

theorem flatten_t_toRat (n i : ℤ) :
    ((Q.ofInt 1 * Q.ofInt i) / Q.ofInt n).toRat = (i : ℚ) / (n : ℚ) := by
  have h1 : (Q.ofInt 1).den ≠ 0 := by rw [Q.ofInt_den]; exact one_ne_zero
  have hi : (Q.ofInt i).den ≠ 0 := by rw [Q.ofInt_den]; exact one_ne_zero
  have hn : (Q.ofInt n).den ≠ 0 := by rw [Q.ofInt_den]; exact one_ne_zero
  have hm : (Q.ofInt 1 * Q.ofInt i).den ≠ 0 := by
    rw [Q.mul_den, Q.ofInt_den, Q.ofInt_den]
    exact one_ne_zero
  rw [Q.toRat_div _ _ hm hn, Q.toRat_mul _ _ h1 hi, Q.toRat_ofInt, Q.toRat_ofInt,
    Q.toRat_ofInt, Int.cast_one, one_mul]

theorem bezier_curve_points_length (ctrls : Fin 4 → Pt) :
    (bezier_curve_points ctrls).length = 50 := by
  simp [bezier_curve_points, flatten_curve]

theorem bezier_cAt_lt (ctrls : Fin 4 → Pt) (i : ℕ) (h : i < 50) :
    bezier_cAt ctrls i = decasteljau 4 [ctrls 0, ctrls 1, ctrls 2, ctrls 3]
      ((Q.ofInt 1 * Q.ofInt (i : ℤ)) / Q.ofInt (((50 - 1 : ℕ)) : ℤ)) := by
  unfold bezier_cAt bezier_curve_points flatten_curve
  rw [List.getD_eq_getElem?_getD, List.getElem?_map, List.getElem?_range (by omega : i < 50 - 1 + 1)]
  rfl

theorem bezier_cAt_bounds (r : ℤ) (hr : 0 ≤ r) (ctrls : Fin 4 → Pt)
    (hc : ∀ k : Fin 4, PtInRange r (ctrls k)) (i : ℕ) :
    PtInRange r (bezier_cAt ctrls i) := by
  by_cases h : i < 50
  · rw [bezier_cAt_lt ctrls i h]
    have hden : ((Q.ofInt 1 * Q.ofInt (i : ℤ)) / Q.ofInt (((50 - 1 : ℕ)) : ℤ)).den ≠ 0 :=
      flatten_t_den_ne _ _ (by norm_num)
    have htoRat : ((Q.ofInt 1 * Q.ofInt (i : ℤ)) / Q.ofInt (((50 - 1 : ℕ)) : ℤ)).toRat
        = ((i : ℤ) : ℚ) / (((50 - 1 : ℕ) : ℤ) : ℚ) := flatten_t_toRat _ _
    have ht0 : 0 ≤ ((Q.ofInt 1 * Q.ofInt (i : ℤ)) / Q.ofInt (((50 - 1 : ℕ)) : ℤ)).toRat := by
      rw [htoRat]
      positivity
    have ht1 : ((Q.ofInt 1 * Q.ofInt (i : ℤ)) / Q.ofInt (((50 - 1 : ℕ)) : ℤ)).toRat ≤ 1 := by
      rw [htoRat]
      rw [div_le_one (by norm_num)]
      have : (i : ℤ) ≤ 49 := by omega
      push_cast
      exact_mod_cast this
    apply decasteljau_bounds r hr _ hden ht0 ht1
    intro p hp
    simp only [List.mem_cons, List.not_mem_nil, or_false] at hp
    rcases hp with h | h | h | h <;> (rw [h]; exact hc _)
  · unfold bezier_cAt
    rw [List.getD_eq_default _ _ (by rw [bezier_curve_points_length]; omega)]
    exact ⟨le_refl 0, hr, le_refl 0, hr⟩

theorem bezier_cAt_diag (ctrls : Fin 4 → Pt)
    (hc : ∀ k : Fin 4, PtDiag (ctrls k)) (i : ℕ) :
    PtDiag (bezier_cAt ctrls i) := by
  by_cases h : i < 50
  · rw [bezier_cAt_lt ctrls i h]
    apply decasteljau_diag
    intro p hp
    simp only [List.mem_cons, List.not_mem_nil, or_false] at hp
    rcases hp with h | h | h | h <;> (rw [h]; exact hc _)
  · unfold bezier_cAt
    rw [List.getD_eq_default _ _ (by rw [bezier_curve_points_length]; omega)]
    exact rfl

/-! ### Rasterizer: the drawing phase as a fold over segments -/

theorem foldl_line_between_good (P : Pt → Prop) (x : ℤ) :
    ∀ (segs : List (Pt × Pt)) (curve : ℤ → Pt),
      (∀ s ∈ segs, ∀ b : ℤ → Pt, P (b x) → P (line_between s.1 s.2 b x)) →
      (P (curve x) ∨ ∃ s ∈ segs, ∀ b : ℤ → Pt, P (line_between s.1 s.2 b x)) →
      P ((segs.foldl (fun c s => line_between s.1 s.2 c) curve) x) := by
  intro segs
  induction segs with
  | nil =>
    intro curve hpres hbase
    rcases hbase with h | ⟨s, hs, _⟩
    · exact h
    · simp at hs
  | cons s rest ih =>
    intro curve hpres hbase
    rw [List.foldl_cons]
    apply ih
    · intro s' hs' b hb
      exact hpres s' (List.mem_cons_of_mem _ hs') b hb
    · rcases hbase with h | ⟨s', hs', hstrong⟩
      · exact Or.inl (hpres s (List.mem_cons_self _ _) curve h)
      · rcases List.mem_cons.mp hs' with heq | hmem
        · subst heq
          exact Or.inl (hstrong curve)
        · exact Or.inr ⟨s', hmem, hstrong⟩

theorem straddle (e : ℕ → ℤ) (x : ℤ) :
    ∀ n : ℕ, 1 ≤ n → e 0 ≤ x → x ≤ e n →
      ∃ i, i < n ∧ e i ≤ x ∧ x ≤ e (i + 1) := by
  intro n
  induction n with
  | zero => intro h; omega
  | succ n ih =>
    intro _ h0 hn
    by_cases hx : x ≤ e n
    · rcases Nat.eq_zero_or_pos n with hn0 | hpos
      · subst hn0
        exact ⟨0, by omega, h0, hn⟩
      · obtain ⟨i, hi, h1, h2⟩ := ih hpos h0 hx
        exact ⟨i, by omega, h1, h2⟩
    · push_neg at hx
      exact ⟨n, by omega, le_of_lt hx, hn⟩

theorem bezier_draw_core (ctrls : Fin 4 → Pt) (range : ℤ) (junk : ℤ → Pt) :
    (List.range 49).foldl
        (fun b i => line_between (bezier_cAt ctrls i) (bezier_cAt ctrls (i + 1)) b)
        (line_between ⟨0, 0⟩ (bezier_cAt ctrls 0) junk)
      = ((List.range 50).map (segAt ctrls range)).foldl
          (fun c s => line_between s.1 s.2 c) junk := by
  rw [show List.range 50 = 0 :: List.map Nat.succ (List.range 49) from
      List.range_succ_eq_map 49,
    List.map_cons, List.foldl_cons, List.map_map, List.foldl_map]
  have hseg0 : segAt ctrls range 0 = (⟨0, 0⟩, bezier_cAt ctrls 0) := by
    unfold segAt
    rw [if_pos rfl]
  rw [hseg0]
  apply List.foldl_ext
  intro b i hi
  have hi49 : i < 49 := List.mem_range.mp hi
  have hseg : segAt ctrls range (Nat.succ i) = (bezier_cAt ctrls i, bezier_cAt ctrls (i + 1)) := by
    unfold segAt
    rw [if_neg (Nat.succ_ne_zero i), if_pos (by omega : Nat.succ i ≤ 49)]
    rw [show Nat.succ i - 1 = i from by omega]
  rw [Function.comp_apply, hseg]

theorem bezier_draw_eq_fold (ctrls : Fin 4 → Pt) (range : ℤ) (junk : ℤ → Pt) :
    bezier_draw ctrls range junk =
      ((List.range (segCount ctrls range)).map (segAt ctrls range)).foldl
        (fun c s => line_between s.1 s.2 c) junk := by
  unfold bezier_draw segCount
  by_cases htail : (bezier_cAt ctrls 49).x < range
  · rw [if_pos htail, if_pos htail]
    rw [show List.range 51 = List.range 50 ++ [50] from List.range_succ 50]
    rw [List.map_append, List.foldl_append, ← bezier_draw_core ctrls range junk]
    have hseg50 : segAt ctrls range 50 = (bezier_cAt ctrls 49, (⟨range, range⟩ : Pt)) := by
      unfold segAt
      rw [if_neg (by norm_num : ¬(50 = 0)), if_neg (by norm_num : ¬(50 ≤ 49))]
    rw [List.map_cons, List.map_nil, List.foldl_cons, List.foldl_nil, hseg50]
  · rw [if_neg htail, if_neg htail]
    exact bezier_draw_core ctrls range junk

theorem segAt_endpts (ctrls : Fin 4 → Pt) (range : ℤ) (k : ℕ) (hk : k ≤ 50) :
    (segAt ctrls range k).1.x = endpt ctrls range k ∧
    (segAt ctrls range k).2.x = endpt ctrls range (k + 1) := by
  unfold segAt endpt
  by_cases h0 : k = 0
  · subst h0
    norm_num
  · rw [if_neg h0, if_neg h0, if_pos hk]
    by_cases h49 : k ≤ 49
    · rw [if_pos h49]
      refine ⟨rfl, ?_⟩
      rw [if_neg (by omega : ¬(k + 1 = 0)), if_pos (by omega : k + 1 ≤ 50)]
      show (bezier_cAt ctrls k).x = (bezier_cAt ctrls (k + 1 - 1)).x
      rw [show k + 1 - 1 = k from by omega]
    · rw [if_neg h49]
      have hk50 : k = 50 := by omega
      subst hk50
      refine ⟨?_, ?_⟩
      · show (bezier_cAt ctrls 49).x = (bezier_cAt ctrls (50 - 1)).x
        norm_num
      · rw [if_neg (by norm_num : ¬(50 + 1 = 0)), if_neg (by norm_num : ¬(50 + 1 ≤ 50))]

theorem endpt_top (ctrls : Fin 4 → Pt) (range : ℤ) (x : ℤ) (hx : x ≤ range)
    (hbound : (bezier_cAt ctrls 49).x ≤ range) :
    x ≤ endpt ctrls range (segCount ctrls range) := by
  unfold segCount endpt
  by_cases htail : (bezier_cAt ctrls 49).x < range
  · rw [if_pos htail, if_neg (by norm_num : ¬(51 = 0)), if_neg (by norm_num : ¬(51 ≤ 50))]
    exact hx
  · rw [if_neg htail, if_neg (by norm_num : ¬(50 = 0)), if_pos (by norm_num : (50 : ℕ) ≤ 50)]
    have hge : range ≤ (bezier_cAt ctrls 49).x := not_lt.mp htail
    show x ≤ (bezier_cAt ctrls (50 - 1)).x
    norm_num
    omega

theorem bezier_draw_good (P : Pt → Prop) (ctrls : Fin 4 → Pt) (range : ℤ)
    (junk : ℤ → Pt) (x : ℤ) (hx0 : 0 ≤ x) (hxr : x ≤ range)
    (hbound : (bezier_cAt ctrls 49).x ≤ range)
    (hpres : ∀ k, k < segCount ctrls range → ∀ b : ℤ → Pt,
      P (b x) → P (line_between (segAt ctrls range k).1 (segAt ctrls range k).2 b x))
    (hstrong : ∀ k, k < segCount ctrls range →
      (segAt ctrls range k).1.x ≤ x → x ≤ (segAt ctrls range k).2.x →
      ∀ b : ℤ → Pt, P (line_between (segAt ctrls range k).1 (segAt ctrls range k).2 b x)) :
    P (bezier_draw ctrls range junk x) := by
  rw [bezier_draw_eq_fold]
  apply foldl_line_between_good
  · intro s hs b hb
    obtain ⟨k, hkmem, heq⟩ := List.mem_map.mp hs
    subst heq
    exact hpres k (List.mem_range.mp hkmem) b hb
  · have hcount1 : 1 ≤ segCount ctrls range := by
      unfold segCount
      split_ifs <;> norm_num
    obtain ⟨k, hk, h1, h2⟩ := straddle (endpt ctrls range) x (segCount ctrls range)
      hcount1 hx0 (endpt_top ctrls range x hxr hbound)
    have hk50 : k ≤ 50 := by
      unfold segCount at hk
      split_ifs at hk <;> omega
    obtain ⟨ha, hb⟩ := segAt_endpts ctrls range k hk50
    refine Or.inr ⟨segAt ctrls range k,
      List.mem_map_of_mem _ (List.mem_range.mpr hk), ?_⟩
    exact hstrong k hk (by rw [ha]; exact h1) (by rw [hb]; exact h2)

/-! ### Rasterizer: values written by line_between -/

theorem line_expr_den_ne (a b : Pt) (hd : b.x - a.x ≠ 0) (j : ℤ) :
    ((Q.ofInt (b.y - a.y) / Q.ofInt (b.x - a.x)) * Q.ofInt j +
      (Q.ofInt a.y - (Q.ofInt (b.y - a.y) / Q.ofInt (b.x - a.x)) * Q.ofInt a.x)).den ≠ 0 := by
  rw [Q.add_den, Q.mul_den, Q.sub_den, Q.mul_den, Q.div_den, Q.ofInt_den, Q.ofInt_den,
    Q.ofInt_den]
  show 1 * (Q.ofInt (b.x - a.x)).num * 1 * (1 * (1 * (Q.ofInt (b.x - a.x)).num * 1)) ≠ 0
  simpa [Q.ofInt] using hd

theorem line_expr_toRat (a b : Pt) (hd : b.x - a.x ≠ 0) (j : ℤ) :
    ((Q.ofInt (b.y - a.y) / Q.ofInt (b.x - a.x)) * Q.ofInt j +
      (Q.ofInt a.y - (Q.ofInt (b.y - a.y) / Q.ofInt (b.x - a.x)) * Q.ofInt a.x)).toRat
    = ((b.y : ℚ) - (a.y : ℚ)) / ((b.x : ℚ) - (a.x : ℚ)) * (j : ℚ) +
      ((a.y : ℚ) - ((b.y : ℚ) - (a.y : ℚ)) / ((b.x : ℚ) - (a.x : ℚ)) * (a.x : ℚ)) := by
  have h1 : (Q.ofInt (b.y - a.y)).den ≠ 0 := by rw [Q.ofInt_den]; exact one_ne_zero
  have h2 : (Q.ofInt (b.x - a.x)).den ≠ 0 := by rw [Q.ofInt_den]; exact one_ne_zero
  have hsden : (Q.ofInt (b.y - a.y) / Q.ofInt (b.x - a.x)).den ≠ 0 := by
    rw [Q.div_den, Q.ofInt_den]
    simpa [Q.ofInt] using hd
  have hm1 : ((Q.ofInt (b.y - a.y) / Q.ofInt (b.x - a.x)) * Q.ofInt j).den ≠ 0 := by
    rw [Q.mul_den, Q.ofInt_den]
    simpa using hsden
  have hm2 : ((Q.ofInt (b.y - a.y) / Q.ofInt (b.x - a.x)) * Q.ofInt a.x).den ≠ 0 := by
    rw [Q.mul_den, Q.ofInt_den]
    simpa using hsden
  have hoff : (Q.ofInt a.y - (Q.ofInt (b.y - a.y) / Q.ofInt (b.x - a.x)) * Q.ofInt a.x).den ≠ 0 := by
    rw [Q.sub_den, Q.ofInt_den]
    simpa using hm2
  rw [Q.toRat_add _ _ hm1 hoff, Q.toRat_mul _ _ hsden (by rw [Q.ofInt_den]; exact one_ne_zero),
    Q.toRat_sub _ _ (by rw [Q.ofInt_den]; exact one_ne_zero) hm2,
    Q.toRat_mul _ _ hsden (by rw [Q.ofInt_den]; exact one_ne_zero),
    Q.toRat_div _ _ h1 h2, Q.toRat_ofInt, Q.toRat_ofInt, Q.toRat_ofInt, Q.toRat_ofInt,
    Q.toRat_ofInt]
  push_cast
  ring

theorem line_y_bounds (r : ℤ) (a b : Pt) (hne : ¬(a.x = b.x))
    (ha : PtInRange r a) (hb : PtInRange r b) (j : ℤ) (hj1 : a.x ≤ j) (hj2 : j ≤ b.x) :
    0 ≤ ((Q.ofInt (b.y - a.y) / Q.ofInt (b.x - a.x)) * Q.ofInt j +
      (Q.ofInt a.y - (Q.ofInt (b.y - a.y) / Q.ofInt (b.x - a.x)) * Q.ofInt a.x)).trunc ∧
    ((Q.ofInt (b.y - a.y) / Q.ofInt (b.x - a.x)) * Q.ofInt j +
      (Q.ofInt a.y - (Q.ofInt (b.y - a.y) / Q.ofInt (b.x - a.x)) * Q.ofInt a.x)).trunc ≤ r := by
  have hd : b.x - a.x ≠ 0 := sub_ne_zero.mpr (fun h => hne h.symm)
  have haxb : a.x < b.x := lt_of_le_of_ne (le_trans hj1 hj2) (fun h => hne h)
  have hdpos : (0 : ℚ) < (b.x : ℚ) - (a.x : ℚ) := by
    rw [sub_pos]
    exact_mod_cast haxb
  rw [Q.trunc_toRat _ (line_expr_den_ne a b hd j), line_expr_toRat a b hd j]
  have hay : (0 : ℚ) ≤ (a.y : ℚ) ∧ (a.y : ℚ) ≤ (r : ℚ) :=
    ⟨by exact_mod_cast ha.2.2.1, by exact_mod_cast ha.2.2.2⟩
  have hby : (0 : ℚ) ≤ (b.y : ℚ) ∧ (b.y : ℚ) ≤ (r : ℚ) :=
    ⟨by exact_mod_cast hb.2.2.1, by exact_mod_cast hb.2.2.2⟩
  have hτ0 : (0 : ℚ) ≤ ((j : ℚ) - (a.x : ℚ)) / ((b.x : ℚ) - (a.x : ℚ)) := by
    apply div_nonneg _ (le_of_lt hdpos)
    rw [sub_nonneg]
    exact_mod_cast hj1
  have hτ1 : ((j : ℚ) - (a.x : ℚ)) / ((b.x : ℚ) - (a.x : ℚ)) ≤ 1 := by
    rw [div_le_one hdpos]
    have : (j : ℚ) ≤ (b.x : ℚ) := by exact_mod_cast hj2
    linarith
  have hv : ((b.y : ℚ) - (a.y : ℚ)) / ((b.x : ℚ) - (a.x : ℚ)) * (j : ℚ) +
      ((a.y : ℚ) - ((b.y : ℚ) - (a.y : ℚ)) / ((b.x : ℚ) - (a.x : ℚ)) * (a.x : ℚ))
      = (1 - ((j : ℚ) - (a.x : ℚ)) / ((b.x : ℚ) - (a.x : ℚ))) * (a.y : ℚ) +
        (((j : ℚ) - (a.x : ℚ)) / ((b.x : ℚ) - (a.x : ℚ))) * (b.y : ℚ) := by
    field_simp
    ring
  rw [hv]
  have hv0 : 0 ≤ (1 - ((j : ℚ) - (a.x : ℚ)) / ((b.x : ℚ) - (a.x : ℚ))) * (a.y : ℚ) +
      (((j : ℚ) - (a.x : ℚ)) / ((b.x : ℚ) - (a.x : ℚ))) * (b.y : ℚ) := by
    nlinarith [mul_nonneg (by linarith : (0 : ℚ) ≤ 1 - ((j : ℚ) - (a.x : ℚ)) / ((b.x : ℚ) - (a.x : ℚ))) hay.1,
      mul_nonneg hτ0 hby.1]
  have hvr : (1 - ((j : ℚ) - (a.x : ℚ)) / ((b.x : ℚ) - (a.x : ℚ))) * (a.y : ℚ) +
      (((j : ℚ) - (a.x : ℚ)) / ((b.x : ℚ) - (a.x : ℚ))) * (b.y : ℚ) ≤ (r : ℚ) := by
    nlinarith [mul_le_mul_of_nonneg_left hay.2
        (by linarith : (0 : ℚ) ≤ 1 - ((j : ℚ) - (a.x : ℚ)) / ((b.x : ℚ) - (a.x : ℚ))),
      mul_le_mul_of_nonneg_left hby.2 hτ0]
  exact ⟨ratTrunc_nonneg _ hv0, ratTrunc_le_intCast _ r hv0 hvr⟩

theorem line_diag_value (a b : Pt) (hne : ¬(a.x = b.x)) (hda : PtDiag a) (hdb : PtDiag b)
    (j : ℤ) :
    ((Q.ofInt (b.y - a.y) / Q.ofInt (b.x - a.x)) * Q.ofInt j +
      (Q.ofInt a.y - (Q.ofInt (b.y - a.y) / Q.ofInt (b.x - a.x)) * Q.ofInt a.x)).trunc = j := by
  have hd : b.x - a.x ≠ 0 := sub_ne_zero.mpr (fun h => hne h.symm)
  have hdq : ((b.x : ℚ) - (a.x : ℚ)) ≠ 0 := by
    have := Int.cast_ne_zero (α := ℚ).mpr hd
    rw [Int.cast_sub] at this
    exact this
  rw [Q.trunc_toRat _ (line_expr_den_ne a b hd j), line_expr_toRat a b hd j]
  have hay : (a.y : ℚ) = (a.x : ℚ) := by exact_mod_cast congrArg Int.cast hda.symm
  have hby : (b.y : ℚ) = (b.x : ℚ) := by exact_mod_cast congrArg Int.cast hdb.symm
  rw [hay, hby, div_self hdq]
  rw [show (1 : ℚ) * (j : ℚ) + ((a.x : ℚ) - 1 * (a.x : ℚ)) = ((j : ℤ) : ℚ) by ring]
  exact ratTrunc_intCast j

theorem line_between_strong_range (r : ℤ) (a b : Pt) (ha : PtInRange r a)
    (hb : PtInRange r b) (buf : ℤ → Pt) (x : ℤ) (ht1 : a.x ≤ x) (ht2 : x ≤ b.x) :
    0 ≤ (line_between a b buf x).y ∧ (line_between a b buf x).y ≤ r := by
  by_cases he : a.x = b.x
  · rw [line_between_at_eq a b he]
    have hx : x = a.x := by omega
    rw [if_pos hx]
    exact ⟨ha.2.2.1, ha.2.2.2⟩
  · rw [line_between_at_ne a b he, if_pos ⟨ht1, ht2⟩]
    exact line_y_bounds r a b he ha hb x ht1 ht2

theorem line_between_pres_range (r : ℤ) (a b : Pt) (ha : PtInRange r a)
    (hb : PtInRange r b) (buf : ℤ → Pt) (x : ℤ)
    (hbase : 0 ≤ (buf x).y ∧ (buf x).y ≤ r) :
    0 ≤ (line_between a b buf x).y ∧ (line_between a b buf x).y ≤ r := by
  by_cases he : a.x = b.x
  · rw [line_between_at_eq a b he]
    split_ifs
    · exact ⟨ha.2.2.1, ha.2.2.2⟩
    · exact hbase
  · rw [line_between_at_ne a b he]
    split_ifs with h
    · exact line_y_bounds r a b he ha hb x h.1 h.2
    · exact hbase

theorem line_between_strong_diag (a b : Pt) (hda : PtDiag a) (hdb : PtDiag b)
    (buf : ℤ → Pt) (x : ℤ) (ht1 : a.x ≤ x) (ht2 : x ≤ b.x) :
    line_between a b buf x = ⟨x, x⟩ := by
  by_cases he : a.x = b.x
  · rw [line_between_at_eq a b he]
    have hx : x = a.x := by omega
    rw [if_pos hx, hx]
    show (⟨a.x, a.y⟩ : Pt) = ⟨a.x, a.x⟩
    rw [show a.y = a.x from hda.symm]
  · rw [line_between_at_ne a b he, if_pos ⟨ht1, ht2⟩]
    rw [show ((Q.ofInt (b.y - a.y) / Q.ofInt (b.x - a.x)) * Q.ofInt x +
      (Q.ofInt a.y - (Q.ofInt (b.y - a.y) / Q.ofInt (b.x - a.x)) * Q.ofInt a.x)).trunc = x from
      line_diag_value a b he hda hdb x]

theorem line_between_pres_diag (a b : Pt) (hda : PtDiag a) (hdb : PtDiag b)
    (buf : ℤ → Pt) (x : ℤ) (hbase : buf x = ⟨x, x⟩) :
    line_between a b buf x = ⟨x, x⟩ := by
  by_cases he : a.x = b.x
  · rw [line_between_at_eq a b he]
    split_ifs with h
    · rw [h]
      show (⟨a.x, a.y⟩ : Pt) = ⟨a.x, a.x⟩
      rw [show a.y = a.x from hda.symm]
    · exact hbase
  · rw [line_between_at_ne a b he]
    split_ifs with h
    · rw [line_diag_value a b he hda hdb x]
    · exact hbase

/-! ### Rasterizer: per-segment properties and the drawing results -/

theorem segAt_mem_range (r : ℤ) (hr : 0 ≤ r) (ctrls : Fin 4 → Pt)
    (hc : ∀ k : Fin 4, PtInRange r (ctrls k)) (k : ℕ) :
    PtInRange r (segAt ctrls r k).1 ∧ PtInRange r (segAt ctrls r k).2 := by
  unfold segAt
  split_ifs
  · exact ⟨⟨le_refl 0, hr, le_refl 0, hr⟩, bezier_cAt_bounds r hr ctrls hc 0⟩
  · exact ⟨bezier_cAt_bounds r hr ctrls hc _, bezier_cAt_bounds r hr ctrls hc _⟩
  · exact ⟨bezier_cAt_bounds r hr ctrls hc 49, ⟨hr, le_refl r, hr, le_refl r⟩⟩

theorem segAt_diag (r : ℤ) (ctrls : Fin 4 → Pt)
    (hc : ∀ k : Fin 4, PtDiag (ctrls k)) (k : ℕ) :
    PtDiag (segAt ctrls r k).1 ∧ PtDiag (segAt ctrls r k).2 := by
  unfold segAt
  split_ifs
  · exact ⟨rfl, bezier_cAt_diag ctrls hc 0⟩
  · exact ⟨bezier_cAt_diag ctrls hc _, bezier_cAt_diag ctrls hc _⟩
  · exact ⟨bezier_cAt_diag ctrls hc 49, rfl⟩

theorem bezier_draw_range (r : ℤ) (hr : 0 ≤ r) (ctrls : Fin 4 → Pt)
    (hc : ∀ k : Fin 4, PtInRange r (ctrls k)) (junk : ℤ → Pt) (x : ℤ)
    (hx0 : 0 ≤ x) (hxr : x ≤ r) :
    0 ≤ (bezier_draw ctrls r junk x).y ∧ (bezier_draw ctrls r junk x).y ≤ r := by
  apply bezier_draw_good (fun p => 0 ≤ p.y ∧ p.y ≤ r) ctrls r junk x hx0 hxr
    ((bezier_cAt_bounds r hr ctrls hc 49).2.1)
  · intro k hk b hb
    obtain ⟨h1, h2⟩ := segAt_mem_range r hr ctrls hc k
    exact line_between_pres_range r _ _ h1 h2 b x hb
  · intro k hk ht1 ht2 b
    obtain ⟨h1, h2⟩ := segAt_mem_range r hr ctrls hc k
    exact line_between_strong_range r _ _ h1 h2 b x ht1 ht2

theorem bezier_draw_diag (r : ℤ) (hr : 0 ≤ r) (ctrls : Fin 4 → Pt)
    (hcr : ∀ k : Fin 4, PtInRange r (ctrls k))
    (hcd : ∀ k : Fin 4, PtDiag (ctrls k)) (junk : ℤ → Pt) (x : ℤ)
    (hx0 : 0 ≤ x) (hxr : x ≤ r) :
    bezier_draw ctrls r junk x = ⟨x, x⟩ := by
  apply bezier_draw_good (fun p => p = ⟨x, x⟩) ctrls r junk x hx0 hxr
    ((bezier_cAt_bounds r hr ctrls hcr 49).2.1)
  · intro k hk b hb
    obtain ⟨h1, h2⟩ := segAt_diag r ctrls hcd k
    exact line_between_pres_diag _ _ h1 h2 b x hb
  · intro k hk ht1 ht2 b
    obtain ⟨h1, h2⟩ := segAt_diag r ctrls hcd k
    exact line_between_strong_diag _ _ h1 h2 b x ht1 ht2

theorem cubic_bezier_success (controls : Fin 4 → BezierControlPoint) (N : ℕ)
    (junk : ℤ → Pt) (out : List ℤ) (h1 : validCoords controls)
    (h2 : scaledMonotone (scaleCtrls controls ((N : ℤ) - 1))) :
    cubic_bezier controls N junk out =
      (true, (List.range N).map
        (fun (i : ℕ) => (bezier_draw (scaleCtrls controls ((N : ℤ) - 1)) ((N : ℤ) - 1) junk (i : ℤ)).y)) := by
  simp only [cubic_bezier]
  rw [if_pos h1, if_pos h2]

theorem getD_range_map (f : ℕ → ℤ) (N x : ℕ) (h : x < N) :
    ((List.range N).map f).getD x 0 = f x := by
  rw [List.getD_eq_getElem?_getD, List.getElem?_map, List.getElem?_range h]
  rfl

/-! ### Rasterizer: validation from the semantic hypotheses -/

theorem scale_coord_bounds (q : Q) (hq : q.den ≠ 0) (h0 : 0 ≤ q.toRat)
    (h1 : q.toRat ≤ 1) (r : ℤ) (hr : 0 ≤ r) :
    0 ≤ (q * Q.ofInt r).trunc ∧ (q * Q.ofInt r).trunc ≤ r := by
  have hden : (q * Q.ofInt r).den ≠ 0 := by
    rw [Q.mul_den, Q.ofInt_den]
    simpa using hq
  have htoRat : (q * Q.ofInt r).toRat = q.toRat * (r : ℚ) := by
    rw [Q.toRat_mul _ _ hq (by rw [Q.ofInt_den]; exact one_ne_zero), Q.toRat_ofInt]
  rw [Q.trunc_toRat _ hden, htoRat]
  have hrq : (0 : ℚ) ≤ (r : ℚ) := by exact_mod_cast hr
  have hv0 : 0 ≤ q.toRat * (r : ℚ) := mul_nonneg h0 hrq
  have hvr : q.toRat * (r : ℚ) ≤ (r : ℚ) := by nlinarith
  exact ⟨ratTrunc_nonneg _ hv0, ratTrunc_le_intCast _ r hv0 hvr⟩

theorem scaleCtrls_bounds (controls : Fin 4 → BezierControlPoint) (r : ℤ) (hr : 0 ≤ r)
    (hden : ∀ i : Fin 4, (controls i).x.den ≠ 0 ∧ (controls i).y.den ≠ 0)
    (hcoords : ∀ i : Fin 4, 0 ≤ (controls i).x.toRat ∧ (controls i).x.toRat ≤ 1 ∧
      0 ≤ (controls i).y.toRat ∧ (controls i).y.toRat ≤ 1) :
    ∀ i : Fin 4, PtInRange r (scaleCtrls controls r i) := by
  intro i
  obtain ⟨hdx, hdy⟩ := hden i
  obtain ⟨hx0, hx1, hy0, hy1⟩ := hcoords i
  have hx := scale_coord_bounds _ hdx hx0 hx1 r hr
  have hy := scale_coord_bounds _ hdy hy0 hy1 r hr
  exact ⟨hx.1, hx.2, hy.1, hy.2⟩

theorem validCoords_of_semantic (controls : Fin 4 → BezierControlPoint)
    (hden : ∀ i : Fin 4, (controls i).x.den ≠ 0 ∧ (controls i).y.den ≠ 0)
    (hcoords : ∀ i : Fin 4, 0 ≤ (controls i).x.toRat ∧ (controls i).x.toRat ≤ 1 ∧
      0 ≤ (controls i).y.toRat ∧ (controls i).y.toRat ≤ 1) :
    validCoords controls := by
  intro i
  obtain ⟨hdx, hdy⟩ := hden i
  obtain ⟨hx0, hx1, hy0, hy1⟩ := hcoords i
  have hofd : ∀ z : ℤ, (Q.ofInt z).den ≠ 0 := fun z => by
    rw [Q.ofInt_den]
    exact one_ne_zero
  refine ⟨?_, ?_, ?_, ?_⟩
  · rw [Q.lt_iff _ _ hdx (hofd 0), Q.toRat_ofInt]
    push_cast
    linarith
  · rw [Q.lt_iff _ _ (hofd 1) hdx, Q.toRat_ofInt]
    push_cast
    linarith
  · rw [Q.lt_iff _ _ hdy (hofd 0), Q.toRat_ofInt]
    push_cast
    linarith
  · rw [Q.lt_iff _ _ (hofd 1) hdy, Q.toRat_ofInt]
    push_cast
    linarith

theorem scaledMonotone_of_semantic (controls : Fin 4 → BezierControlPoint) (r : ℤ)
    (hr : 0 ≤ r)
    (hden : ∀ i : Fin 4, (controls i).x.den ≠ 0 ∧ (controls i).y.den ≠ 0)
    (hcoords : ∀ i : Fin 4, 0 ≤ (controls i).x.toRat ∧ (controls i).x.toRat ≤ 1 ∧
      0 ≤ (controls i).y.toRat ∧ (controls i).y.toRat ≤ 1)
    (hmono : ∀ i : Fin 3, (controls i.castSucc).x.toRat ≤ (controls i.succ).x.toRat) :
    scaledMonotone (scaleCtrls controls r) := by
  intro i
  rw [not_lt]
  show ((controls i.castSucc).x * Q.ofInt r).trunc ≤ ((controls i.succ).x * Q.ofInt r).trunc
  have hd1 : ((controls i.castSucc).x * Q.ofInt r).den ≠ 0 := by
    rw [Q.mul_den, Q.ofInt_den]
    simpa using (hden i.castSucc).1
  have hd2 : ((controls i.succ).x * Q.ofInt r).den ≠ 0 := by
    rw [Q.mul_den, Q.ofInt_den]
    simpa using (hden i.succ).1
  have ht1 : ((controls i.castSucc).x * Q.ofInt r).toRat = (controls i.castSucc).x.toRat * (r : ℚ) := by
    rw [Q.toRat_mul _ _ (hden i.castSucc).1 (by rw [Q.ofInt_den]; exact one_ne_zero), Q.toRat_ofInt]
  have ht2 : ((controls i.succ).x * Q.ofInt r).toRat = (controls i.succ).x.toRat * (r : ℚ) := by
    rw [Q.toRat_mul _ _ (hden i.succ).1 (by rw [Q.ofInt_den]; exact one_ne_zero), Q.toRat_ofInt]
  rw [Q.trunc_toRat _ hd1, Q.trunc_toRat _ hd2, ht1, ht2]
  have hrq : (0 : ℚ) ≤ (r : ℚ) := by exact_mod_cast hr
  apply ratTrunc_mono_nonneg
  · exact mul_nonneg (hcoords i.castSucc).1 hrq
  · exact mul_le_mul_of_nonneg_right (hmono i) hrq

theorem scaleCtrls_defaults (r : ℤ) :
    ∀ i : Fin 4, scaleCtrls bezier_defaults r i =
      if (i : ℕ) < 2 then (⟨0, 0⟩ : Pt) else ⟨r, r⟩ := by
  intro i
  unfold scaleCtrls bezier_defaults
  by_cases h : (i : ℕ) < 2
  · rw [if_pos h, if_pos h]
    show (⟨((0 : ℤ) * r).tdiv (1 * 1), ((0 : ℤ) * r).tdiv (1 * 1)⟩ : Pt) = ⟨0, 0⟩
    simp [Int.tdiv_one]
  · rw [if_neg h, if_neg h]
    show (⟨((1 : ℤ) * r).tdiv (1 * 1), ((1 : ℤ) * r).tdiv (1 * 1)⟩ : Pt) = ⟨r, r⟩
    simp [Int.tdiv_one]

/-- Claim C4: for every size N ≥ 1, cubic_bezier on the all-corner control
points {(0,0),(0,0),(1,1),(1,1)} succeeds and fills the whole table with
the identity: lut[x] = x for every x < N, whatever the uninitialised
buffer contained. -/
theorem claim_C4 (N : ℕ) (hN : 1 ≤ N) (junk : ℤ → Pt) (out : List ℤ) :
    (cubic_bezier bezier_defaults N junk out).1 = true ∧
    ∀ x : ℕ, x < N → (cubic_bezier bezier_defaults N junk out).2.getD x 0 = (x : ℤ) := by
  have hr : (0 : ℤ) ≤ (N : ℤ) - 1 := by omega
  have hvalid : validCoords bezier_defaults := by decide
  have hscale := scaleCtrls_defaults ((N : ℤ) - 1)
  have hcr : ∀ k : Fin 4, PtInRange ((N : ℤ) - 1) (scaleCtrls bezier_defaults ((N : ℤ) - 1) k) := by
    intro k
    rw [hscale k]
    split_ifs
    · exact ⟨le_refl 0, hr, le_refl 0, hr⟩
    · exact ⟨hr, le_refl _, hr, le_refl _⟩
  have hcd : ∀ k : Fin 4, PtDiag (scaleCtrls bezier_defaults ((N : ℤ) - 1) k) := by
    intro k
    rw [hscale k]
    split_ifs <;> rfl
  have hmono : scaledMonotone (scaleCtrls bezier_defaults ((N : ℤ) - 1)) := by
    intro i
    simp only [hscale]
    fin_cases i <;> simp <;> try omega
  have hkey := cubic_bezier_success bezier_defaults N junk out hvalid hmono
  constructor
  · rw [hkey]
  · intro x hx
    rw [hkey]
    show ((List.range N).map
      (fun (i : ℕ) => (bezier_draw (scaleCtrls bezier_defaults ((N : ℤ) - 1)) ((N : ℤ) - 1) junk (i : ℤ)).y)).getD x 0 = (x : ℤ)
    rw [getD_range_map _ N x hx]
    rw [bezier_draw_diag ((N : ℤ) - 1) hr _ hcr hcd junk (x : ℤ)
      (by exact_mod_cast Nat.zero_le x) (by omega)]

/-- Claim C4 witness: the identity table at size 3 with a nonzero junk
buffer. -/
theorem claim_C4_witness :
    (cubic_bezier bezier_defaults 3 junkZero []).1 = true ∧
    ∀ x : ℕ, x < 3 → (cubic_bezier bezier_defaults 3 junkZero []).2.getD x 0 = (x : ℤ) :=
  claim_C4 3 (by decide) junkZero []

/-- Claim C6: for every size N ≥ 1 and every set of four control points
that passes validation (all coordinates in [0,1] and non-decreasing x, as
rational values of well-formed fractions), cubic_bezier succeeds and
every index x < N of the output is written with a value in [0, N-1],
whatever the uninitialised buffer contained. -/
theorem claim_C6 (controls : Fin 4 → BezierControlPoint) (N : ℕ) (hN : 1 ≤ N)
    (hden : ∀ i : Fin 4, (controls i).x.den ≠ 0 ∧ (controls i).y.den ≠ 0)
    (hcoords : ∀ i : Fin 4, 0 ≤ (controls i).x.toRat ∧ (controls i).x.toRat ≤ 1 ∧
      0 ≤ (controls i).y.toRat ∧ (controls i).y.toRat ≤ 1)
    (hmono : ∀ i : Fin 3, (controls i.castSucc).x.toRat ≤ (controls i.succ).x.toRat)
    (junk : ℤ → Pt) (out : List ℤ) :
    (cubic_bezier controls N junk out).1 = true ∧
    ∀ x : ℕ, x < N → 0 ≤ (cubic_bezier controls N junk out).2.getD x 0 ∧
      (cubic_bezier controls N junk out).2.getD x 0 ≤ (N : ℤ) - 1 := by
  have hr : (0 : ℤ) ≤ (N : ℤ) - 1 := by omega
  have hvalid := validCoords_of_semantic controls hden hcoords
  have hsm := scaledMonotone_of_semantic controls ((N : ℤ) - 1) hr hden hcoords hmono
  have hkey := cubic_bezier_success controls N junk out hvalid hsm
  have hcr := scaleCtrls_bounds controls ((N : ℤ) - 1) hr hden hcoords
  constructor
  · rw [hkey]
  · intro x hx
    rw [hkey]
    show 0 ≤ ((List.range N).map
        (fun (i : ℕ) => (bezier_draw (scaleCtrls controls ((N : ℤ) - 1)) ((N : ℤ) - 1) junk (i : ℤ)).y)).getD x 0 ∧
      ((List.range N).map
        (fun (i : ℕ) => (bezier_draw (scaleCtrls controls ((N : ℤ) - 1)) ((N : ℤ) - 1) junk (i : ℤ)).y)).getD x 0 ≤ (N : ℤ) - 1
    rw [getD_range_map _ N x hx]
    exact bezier_draw_range ((N : ℤ) - 1) hr _ hcr junk (x : ℤ)
      (by exact_mod_cast Nat.zero_le x) (by omega)

/-- Claim C6 witness: the default curve at size 2. -/
theorem claim_C6_witness :
    (cubic_bezier bezier_defaults 2 junkZero []).1 = true ∧
    ∀ x : ℕ, x < 2 → 0 ≤ (cubic_bezier bezier_defaults 2 junkZero []).2.getD x 0 ∧
      (cubic_bezier bezier_defaults 2 junkZero []).2.getD x 0 ≤ ((2 : ℕ) : ℤ) - 1 :=
  claim_C6 bezier_defaults 2 (by decide) (by decide)
    (by
      intro i
      by_cases h : (i : ℕ) < 2 <;> simp [bezier_defaults, h, Q.toRat_ofInt])
    (by
      intro i
      fin_cases i <;> simp [bezier_defaults, Q.toRat_ofInt])
    junkZero []

/-- Claim C5 counterexample: the monotonicity check runs on the SCALED
integer control points.  With output size 1 the scale factor is 0, so the
raw-coordinate violation c1.x = 9/10 > 1/2 = c2.x disappears после
scaling: cubic_bezier succeeds and overwrites the output buffer. -/
theorem claim_C5_counterexample :
    (0 : ℤ) < (cexCtrls 1).x.den ∧ (0 : ℤ) < (cexCtrls 2).x.den ∧
    Q.lt (cexCtrls 2).x (cexCtrls 1).x ∧
    validCoords cexCtrls ∧
    cubic_bezier cexCtrls 1 junkZero [7] = (true, [0]) := by
  decide

/-- Claim C5 amended: cubic_bezier fails (leaving the output untouched)
exactly when a raw coordinate leaves [0,1] or the SCALED integer control
points decrease in x; a decrease of the raw x coordinates alone does not
force a failure (the truncated scaled points can still be monotone, as
the counterexample at size 1 shows).  The coordinate test agrees with the
rational semantics of the fractions. -/
theorem claim_C5_amended :
    (∀ (controls : Fin 4 → BezierControlPoint) (sz : ℕ) (junk : ℤ → Pt) (out : List ℤ),
      cubic_bezier controls sz junk out = (false, out) ↔
        (¬ validCoords controls ∨
          ¬ scaledMonotone (scaleCtrls controls ((sz : ℤ) - 1)))) ∧
    (∀ controls : Fin 4 → BezierControlPoint,
      (∀ i : Fin 4, (controls i).x.den ≠ 0 ∧ (controls i).y.den ≠ 0) →
      (validCoords controls ↔ ∀ i : Fin 4,
        0 ≤ (controls i).x.toRat ∧ (controls i).x.toRat ≤ 1 ∧
        0 ≤ (controls i).y.toRat ∧ (controls i).y.toRat ≤ 1)) := by
  constructor
  · intro controls sz junk out
    constructor
    · intro h
      by_contra hc
      rw [not_or, not_not, not_not] at hc
      rw [cubic_bezier_success controls sz junk out hc.1 hc.2] at h
      simp at h
    · intro h
      simp only [cubic_bezier]
      rcases h with h | h
      · rw [if_neg h]
      · by_cases hv : validCoords controls
        · rw [if_pos hv, if_neg h]
        · rw [if_neg hv]
  · intro controls hden
    constructor
    · intro hv i
      obtain ⟨h1, h2, h3, h4⟩ := hv i
      obtain ⟨hdx, hdy⟩ := hden i
      have hofd : ∀ z : ℤ, (Q.ofInt z).den ≠ 0 := fun z => by
        rw [Q.ofInt_den]
        exact one_ne_zero
      rw [Q.lt_iff _ _ hdx (hofd 0), Q.toRat_ofInt] at h1
      rw [Q.lt_iff _ _ (hofd 1) hdx, Q.toRat_ofInt] at h2
      rw [Q.lt_iff _ _ hdy (hofd 0), Q.toRat_ofInt] at h3
      rw [Q.lt_iff _ _ (hofd 1) hdy, Q.toRat_ofInt] at h4
      push_cast at h1 h2 h3 h4
      exact ⟨not_lt.mp h1, not_lt.mp h2, not_lt.mp h3, not_lt.mp h4⟩
    · intro hc
      exact validCoords_of_semantic controls hden hc

/-- Claim C5 amended witness: the out-of-range control set is rejected
with the buffer untouched, and the default control set passes the
coordinate test with in-range rational coordinates. -/
theorem claim_C5_amended_witness :
    cubic_bezier badCtrls 8 junkZero [4, 4] = (false, [4, 4]) ∧
    (∀ i : Fin 4, 0 ≤ (bezier_defaults i).x.toRat ∧ (bezier_defaults i).x.toRat ≤ 1 ∧
      0 ≤ (bezier_defaults i).y.toRat ∧ (bezier_defaults i).y.toRat ≤ 1) :=
  ⟨(claim_C5_amended.1 badCtrls 8 junkZero [4, 4]).mpr (Or.inl (by decide)),
   (claim_C5_amended.2 bezier_defaults (by decide)).mp (by decide)⟩
